import Mathlib

/-!
Shallow embedding of the Excel import pipeline of `app_web.py`
(class `ExcelImporter`, function `clean_duplicate_jobs`), together with
proofs about its specified behaviour.

Conventions:
* a pandas `NaN` cell is `Option.none`; a present cell is `some (Cell …)`;
* Python `datetime.date` values are the `Date` structure below;
* the database rows handled by peewee (`Client`, `Equipment`, `Job`) are
  structures holding the fields the importer reads or writes, with foreign
  keys as numeric ids; `datetime.now().year` is an explicit parameter;
* fallible lookups return `Option`.
-/

namespace AppWeb

/-- Calendar date, the result of Python `datetime.date(y, m, d)`. -/
structure Date where
  year : Nat
  month : Nat
  day : Nat
deriving DecidableEq, Repr

/-- Zero-pad a number to two digits, as Python `"%02d"` rendering used by `str(date)`. -/
def pad2 (n : Nat) : String :=
  if n < 10 then "0" ++ toString n else toString n

/-- Zero-pad a number to four digits, as the year in Python `str(date)`. -/
def pad4 (n : Nat) : String :=
  if n < 10 then "000" ++ toString n
  else if n < 100 then "00" ++ toString n
  else if n < 1000 then "0" ++ toString n
  else toString n

/-- Python `str(...)` of a `datetime.date`: `"YYYY-MM-DD"`. -/
def showDate (d : Date) : String :=
  pad4 d.year ++ "-" ++ pad2 d.month ++ "-" ++ pad2 d.day

/-- A non-null spreadsheet cell value: a string, a native date, or a native
datetime (with its time-of-day components, used only by `str(...)`). -/
inductive Cell where
  | str (s : String)
  | dateCell (d : Date)
  | datetimeCell (d : Date) (hour : Nat) (minute : Nat) (second : Nat)
deriving DecidableEq, Repr

/-- Python `str(cell)` for the cell values the importer can meet. -/
def cellStr : Cell → String
  | .str s => s
  | .dateCell d => showDate d
  | .datetimeCell d h m s =>
      showDate d ++ " " ++ pad2 h ++ ":" ++ pad2 m ++ ":" ++ pad2 s

/-- Python `str.strip()`: drop whitespace from both ends.  (A structurally
recursive replacement for `String.trim`, so that terms evaluate by kernel
reduction.) -/
def strTrim (s : String) : String :=
  ⟨((s.data.dropWhile Char.isWhitespace).reverse.dropWhile Char.isWhitespace).reverse⟩

/-- Python `str.lower()` (ASCII, which covers every token compared). -/
def strLower (s : String) : String :=
  ⟨s.data.map Char.toLower⟩

/-- Python `str.upper()` (ASCII, which covers every token compared). -/
def strUpper (s : String) : String :=
  ⟨s.data.map Char.toUpper⟩

/-- Split a character list at every occurrence of one separator character
(Python `str.split(sep)` / the literal separators of `strptime` formats). -/
def chSplitOn (c : Char) : List Char → List (List Char)
  | [] => [[]]
  | x :: xs =>
      if x = c then [] :: chSplitOn c xs
      else
        match chSplitOn c xs with
        | [] => [[x]]
        | g :: gs => (x :: g) :: gs

/-- Split a string at every occurrence of one separator character. -/
def strSplitOnChar (s : String) (c : Char) : List String :=
  (chSplitOn c s.data).map (fun l => ⟨l⟩)

/-- Split a character list at every character satisfying `p`. -/
def chSplitPred (p : Char → Bool) : List Char → List (List Char)
  | [] => [[]]
  | x :: xs =>
      if p x then [] :: chSplitPred p xs
      else
        match chSplitPred p xs with
        | [] => [[x]]
        | g :: gs => (x :: g) :: gs

/-- Python `str.split()` with no argument: split on whitespace runs,
discarding empty fields. -/
def strWords (s : String) : List String :=
  ((chSplitPred Char.isWhitespace s.data).map (fun l => (⟨l⟩ : String))).filter
    (fun t => t ≠ "")

/-- `ExcelImporter._clean_text` on a non-null value: strip whitespace and
drop empty / `"nan"` / `"none"` placeholders (case-insensitively). -/
def clean_text (c : Cell) : Option String :=
  let t := strTrim (cellStr c)
  if t ≠ "" ∧ strLower t ≠ "nan" ∧ strLower t ≠ "none" then some t else none

/-- Decimal value of an all-digit token; `none` if empty or non-numeric. -/
def digitsToNat (s : String) : Option Nat :=
  if 1 ≤ s.length ∧ s.data.all Char.isDigit then
    some (s.data.foldl (fun acc c => acc * 10 + (c.toNat - Char.toNat '0')) 0)
  else none

/-- CPython `_strptime` field `%Y`: exactly four digits. -/
def parseYear4 (s : String) : Option Nat :=
  if s.length = 4 then digitsToNat s else none

/-- CPython `_strptime` one-or-two-digit numeric field whose regex admits
values in `[lo, hi]` (e.g. `%m` is `1..12`, `%d` is `1..31`, `%H` is `0..23`). -/
def parseNum2 (lo hi : Nat) (s : String) : Option Nat :=
  if s.length = 1 ∨ s.length = 2 then
    match digitsToNat s with
    | some v => if lo ≤ v ∧ v ≤ hi then some v else none
    | none => none
  else none

/-- Gregorian leap year, as Python `calendar`/`datetime`. -/
def isLeap (y : Nat) : Bool :=
  (y % 4 = 0 && y % 100 ≠ 0) || y % 400 = 0

/-- Number of days of month `m` in year `y`. -/
def daysInMonth (y m : Nat) : Nat :=
  if m = 2 then (if isLeap y then 29 else 28)
  else if m = 4 ∨ m = 6 ∨ m = 9 ∨ m = 11 then 30
  else 31

/-- Python `datetime.date(y, m, d)` construction: validates `MINYEAR ≤ y ≤ MAXYEAR`,
month range and day-of-month range, raising (here: `none`) otherwise. -/
def mkValidDate (y m d : Nat) : Option Date :=
  if 1 ≤ y ∧ y ≤ 9999 ∧ 1 ≤ m ∧ m ≤ 12 ∧ 1 ≤ d ∧ d ≤ daysInMonth y m then
    some ⟨y, m, d⟩
  else none

/-- `datetime.strptime(s, "%Y-%m-%d").date()`. -/
def fmtYmd (s : String) : Option Date :=
  match strSplitOnChar s '-' with
  | [y, m, d] =>
      match parseYear4 y, parseNum2 1 12 m, parseNum2 1 31 d with
      | some yv, some mv, some dv => mkValidDate yv mv dv
      | _, _, _ => none
  | _ => none

/-- `datetime.strptime(s, "%d/%m/%Y").date()`. -/
def fmtDmy (s : String) : Option Date :=
  match strSplitOnChar s '/' with
  | [d, m, y] =>
      match parseYear4 y, parseNum2 1 12 m, parseNum2 1 31 d with
      | some yv, some mv, some dv => mkValidDate yv mv dv
      | _, _, _ => none
  | _ => none

/-- `datetime.strptime(s, "%m/%d/%Y").date()`. -/
def fmtMdy (s : String) : Option Date :=
  match strSplitOnChar s '/' with
  | [m, d, y] =>
      match parseYear4 y, parseNum2 1 12 m, parseNum2 1 31 d with
      | some yv, some mv, some dv => mkValidDate yv mv dv
      | _, _, _ => none
  | _ => none

/-- `datetime.strptime(s, "%Y-%m-%d %H:%M:%S").date()`: a whitespace run
separates the date part from a valid `H:M:S` time; the time is validated and
then discarded by `.date()`. -/
def fmtYmdHms (s : String) : Option Date :=
  match ((chSplitPred Char.isWhitespace s.data).map
      (fun l => (⟨l⟩ : String))).filter (fun t => t ≠ "") with
  | [dpart, tpart] =>
      match strSplitOnChar tpart ':' with
      | [h, mi, sec] =>
          match parseNum2 0 23 h, parseNum2 0 59 mi, parseNum2 0 59 sec with
          | some _, some _, some _ => fmtYmd dpart
          | _, _, _ => none
      | _ => none
  | _ => none

/-- The ordered format list of `ExcelImporter._parse_date`:
`['%Y-%m-%d', '%d/%m/%Y', '%m/%d/%Y', '%Y-%m-%d %H:%M:%S']`. -/
def dateFormats : List (String → Option Date) :=
  [fmtYmd, fmtDmy, fmtMdy, fmtYmdHms]

/-- `ExcelImporter._parse_date` on a non-null value: native `date`/`datetime`
values pass through (`datetime` loses its time part); a text value is stripped
and the formats are tried in order, first success winning. -/
def parse_date (c : Cell) : Option Date :=
  match c with
  | .dateCell d => some d
  | .datetimeCell d _ _ _ => some d
  | .str s =>
      let t := strTrim s
      dateFormats.foldl
        (fun acc f => match acc with | some d => some d | none => f t) none

/-- A spreadsheet row: positional cells, `none` for a `NaN` cell.  A row
shorter than the sheet width models the `len(row) > i` guards. -/
abbrev Row := List (Option Cell)

/-- Cell at column `i`, `none` when the row is too short or the cell is `NaN`
(the `len(row) > i and pd.notna(row.iloc[i])` guard). -/
def cellAt (row : Row) (i : Nat) : Option Cell :=
  (row.get? i).join

/-- Cleaned text of column `i`: `self._clean_text(row.iloc[i]) if … else None`. -/
def colText (row : Row) (i : Nat) : Option String :=
  (cellAt row i).bind clean_text

/-- Parsed date of column `i`: `self._parse_date(row.iloc[i]) if … else None`. -/
def colDate (row : Row) (i : Nat) : Option Date :=
  (cellAt row i).bind parse_date

/-- One parsed work record (the `current_work` dict of
`ExcelImporter._extract_equipment_data`); `description` is filled in when the
record is finalized and is `""` while the record is under construction. -/
structure WorkRecord where
  client : String
  equipment : String
  date : Date
  repuestos : String
  mano_obra : String
  description : String
deriving DecidableEq, Repr

/-- The mutable state threaded through the row loop of
`ExcelImporter._extract_equipment_data`. -/
structure SegState where
  current_equipment : Option String
  current_date : Option Date
  current_work : Option WorkRecord
  data : List WorkRecord
deriving DecidableEq, Repr

/-- Append continuation text: `acc += "\n" + t` when `acc` is non-empty,
else `acc = t`. -/
def appendLine (acc t : String) : String :=
  if acc ≠ "" then acc ++ "\n" ++ t else t

/-- `ExcelImporter._build_description`: labor first (prefix `"MANO DE OBRA:"`),
parts second (prefix `"REPUESTOS:"`), sections joined by a blank line, an
empty section omitted. -/
def build_description (repuestos mano_obra : String) : String :=
  String.intercalate "\n\n"
    ((if mano_obra ≠ "" then ["MANO DE OBRA:\n" ++ mano_obra] else []) ++
     (if repuestos ≠ "" then ["REPUESTOS:\n" ++ repuestos] else []))

/-- Set a work record's description from its accumulated text, as done just
before appending it to the output list. -/
def finalizeWork (w : WorkRecord) : WorkRecord :=
  { w with description := build_description w.repuestos w.mano_obra }

/-- Emission guard: `current_work and (current_work['repuestos'] or
current_work['mano_obra'])` — the record carries some text. -/
def hasContent (w : WorkRecord) : Prop :=
  w.repuestos ≠ "" ∨ w.mano_obra ≠ ""

instance (w : WorkRecord) : Decidable (hasContent w) := by
  unfold hasContent; infer_instance

/-- Finalize the open record onto the output list if it has content, else
drop it (both the date-boundary flush and the end-of-sheet flush). -/
def flushWork (data : List WorkRecord) (cw : Option WorkRecord) : List WorkRecord :=
  match cw with
  | some w => if hasContent w then data ++ [finalizeWork w] else data
  | none => data

/-- One iteration of the row loop of `ExcelImporter._extract_equipment_data`. -/
def segStep (clientName : String) (st : SegState) (row : Row) : SegState :=
  let equipo := colText row 0
  let fecha := colDate row 1
  let repuestos := colText row 2
  let mano_obra := colText row 3
  let curEq := match equipo with | some e => some e | none => st.current_equipment
  match fecha, curEq with
  | some d, some eq =>
      { current_equipment := curEq
        current_date := some d
        current_work := some
          { client := clientName, equipment := eq, date := d
            repuestos := repuestos.getD "", mano_obra := mano_obra.getD ""
            description := "" }
        data := flushWork st.data st.current_work }
  | _, _ =>
      if (repuestos.isSome ∨ mano_obra.isSome) ∧ st.current_work.isSome then
        match st.current_work with
        | some w =>
            let w := match repuestos with
              | some r => { w with repuestos := appendLine w.repuestos r }
              | none => w
            let w := match mano_obra with
              | some m => { w with mano_obra := appendLine w.mano_obra m }
              | none => w
            { st with current_equipment := curEq, current_work := some w }
        | none => { st with current_equipment := curEq }
      else
        { st with current_equipment := curEq }

/-- `ExcelImporter._extract_equipment_data`: walk the rows strictly below the
header row, then flush the still-open record. -/
def extract_equipment_data (rows : List Row) (clientName : String) (headerRow : Nat) :
    List WorkRecord :=
  let st := (rows.drop (headerRow + 1)).foldl (segStep clientName)
    ⟨none, none, none, []⟩
  flushWork st.data st.current_work

/-- Boolean check that a pattern occurs as a prefix of a character list. -/
def chStarts : List Char → List Char → Bool
  | [], _ => true
  | _ :: _, [] => false
  | p :: ps, c :: cs => p == c && chStarts ps cs

/-- Boolean check that a pattern occurs contiguously inside a character list. -/
def chHas (p : List Char) : List Char → Bool
  | [] => p.isEmpty
  | c :: cs => chStarts p (c :: cs) || chHas p cs

/-- Python `pat in s` substring test. -/
def strContains (s pat : String) : Bool :=
  chHas pat.data s.data

/-- The header test of `ExcelImporter._find_header_row` on one row: join the
uppercased text of the non-null cells with spaces and look for `"EQUIPO"`
together with `"FECHA"` or `"MANO"`. -/
def rowQualifies (row : Row) : Bool :=
  let rowStr := String.intercalate " "
    (row.filterMap (Option.map (fun c => strUpper (cellStr c))))
  strContains rowStr "EQUIPO" && (strContains rowStr "FECHA" || strContains rowStr "MANO")

/-- `ExcelImporter._find_header_row`: index of the first qualifying row,
`none` when no row qualifies. -/
def find_header_row : List Row → Option Nat
  | [] => none
  | r :: rs =>
      if rowQualifies r then some 0 else (find_header_row rs).map (· + 1)

/-- `ExcelImporter._parse_sheet`: an empty sheet or a sheet without a header
row yields no records (and no error); otherwise the rows below the header are
segmented. -/
def parse_sheet (rows : List Row) (sheetName : String) : List WorkRecord :=
  if rows.isEmpty then []
  else
    match find_header_row rows with
    | none => []
    | some h => extract_equipment_data rows sheetName h

/-- A workbook: sheets in order, each a name and its rows. -/
abbrev Workbook := List (String × List Row)

/-- `ExcelImporter.parse_excel`: walk the sheets in workbook order, skipping a
sheet whose name is blank or is the excluded `'Hoja5'`, extending the parsed
record list with each sheet's records. -/
def parse_excel (wb : Workbook) : List WorkRecord :=
  wb.foldl
    (fun acc sheet =>
      if strTrim sheet.1 ≠ "" ∧ sheet.1 ≠ "Hoja5" then acc ++ parse_sheet sheet.2 sheet.1
      else acc)
    []

/-- A `Client` database row: the fields the importer reads or writes. -/
structure Client where
  id : Nat
  nombre : String
  notes : String
deriving DecidableEq, Repr

/-- An `Equipment` database row: the fields the importer reads or writes;
`client` is the nullable foreign key to a `Client` row. -/
structure Equipment where
  id : Nat
  marca : String
  modelo : String
  anio : Nat
  n_serie : String
  propietario : Option String
  client : Option Nat
  notes : String
deriving DecidableEq, Repr

/-- A `Job` database row: the fields the importer reads or writes; `budget`
is always set to `0` by the import (`0.0` in the source), so a `Nat` field
suffices for it. -/
structure Job where
  id : Nat
  equipment : Nat
  date_done : Date
  description : String
  budget : Nat
  next_service_days : Option Nat
  next_service_date : Option Date
  notes : String
deriving DecidableEq, Repr

/-- The relational store the importer works against: the three tables in
insertion order plus the auto-increment counters for each primary key. -/
structure DB where
  clients : List Client
  equipments : List Equipment
  jobs : List Job
  nextClientId : Nat
  nextEquipmentId : Nat
  nextJobId : Nat
deriving DecidableEq, Repr

/-- The `import_summary` dict of `ExcelImporter`. -/
structure ImportSummary where
  clients_created : Nat
  equipments_created : Nat
  equipments_updated : Nat
  jobs_created : Nat
  errors : List String
deriving DecidableEq, Repr

/-- The summary a freshly constructed `ExcelImporter` starts from. -/
def initSummary : ImportSummary :=
  ⟨0, 0, 0, 0, []⟩

/-- An empty store. -/
def emptyDB : DB :=
  ⟨[], [], [], 0, 0, 0⟩

/-- `ExcelImporter._create_or_get_client`: a blank name resolves to no client;
otherwise exact-name lookup, creating a new client (with the import note and a
`clients_created` tick) on miss.  Returns the client id. -/
def create_or_get_client (db : DB) (s : ImportSummary) (clientName : String) :
    Option Nat × DB × ImportSummary :=
  if strTrim clientName = "" then (none, db, s)
  else
    let name := strTrim clientName
    match db.clients.find? (fun c => decide (c.nombre = name)) with
    | some c => (some c.id, db, s)
    | none =>
        let c : Client :=
          { id := db.nextClientId, nombre := name
            notes := "Cliente creado automáticamente desde importación Excel" }
        (some c.id,
         { db with clients := db.clients ++ [c], nextClientId := db.nextClientId + 1 },
         { s with clients_created := s.clients_created + 1 })

/-- `ExcelImporter._extract_brand`: first whitespace-delimited token. -/
def extract_brand (equipmentName : String) : String :=
  match strWords equipmentName with
  | [] => "Sin especificar"
  | w :: _ => w

/-- `ExcelImporter._extract_model`: remaining tokens joined by a space. -/
def extract_model (equipmentName : String) : String :=
  match strWords equipmentName with
  | [] => "Sin especificar"
  | [_] => "Sin especificar"
  | _ :: rest => String.intercalate " " rest

/-- `ExcelImporter._create_or_update_equipment` (exception-free path): resolve
the client, look the equipment up by serial; on hit, back-fill the client link
when absent and tick `equipments_updated`; on miss, create the equipment with
the heuristically split brand/model, the current year and the import note.
Returns the equipment id. -/
def create_or_update_equipment (year : Nat) (db : DB) (s : ImportSummary)
    (record : WorkRecord) : Option Nat × DB × ImportSummary :=
  let equipmentName := record.equipment
  let clientName := record.client
  let (client, db, s) := create_or_get_client db s clientName
  match db.equipments.find? (fun e => decide (e.n_serie = equipmentName)) with
  | some e =>
      let db :=
        if e.client = none ∧ client.isSome then
          { db with equipments := db.equipments.map (fun e2 =>
              if e2.id = e.id then { e2 with client := client, propietario := some clientName }
              else e2) }
        else db
      (some e.id, db, { s with equipments_updated := s.equipments_updated + 1 })
  | none =>
      let e : Equipment :=
        { id := db.nextEquipmentId
          marca := extract_brand equipmentName
          modelo := extract_model equipmentName
          anio := year
          n_serie := equipmentName
          propietario := some clientName
          client := client
          notes := "Importado desde Excel - Cliente: " ++ clientName }
      (some e.id,
       { db with equipments := db.equipments ++ [e]
                 nextEquipmentId := db.nextEquipmentId + 1 },
       { s with equipments_created := s.equipments_created + 1 })

/-- `ExcelImporter._create_job` (exception-free path): look an existing job up
by exact `(equipment, date)`; on hit, rewrite description and notes when the
description differs; on miss, create the job with `budget = 0`, no service
interval and the import note, ticking `jobs_created`. -/
def create_job (db : DB) (s : ImportSummary) (equipmentId : Nat)
    (record : WorkRecord) : DB × ImportSummary :=
  match db.jobs.find? (fun j =>
      decide (j.equipment = equipmentId ∧ j.date_done = record.date)) with
  | some j =>
      if j.description ≠ record.description then
        ({ db with jobs := db.jobs.map (fun j2 =>
            if j2.id = j.id then
              { j2 with description := record.description
                        notes := "Actualizado desde Excel - Cliente: " ++ record.client }
            else j2) }, s)
      else (db, s)
  | none =>
      let j : Job :=
        { id := db.nextJobId
          equipment := equipmentId
          date_done := record.date
          description := record.description
          budget := 0
          next_service_days := none
          next_service_date := none
          notes := "Importado desde Excel - Cliente: " ++ record.client }
      ({ db with jobs := db.jobs ++ [j], nextJobId := db.nextJobId + 1 },
       { s with jobs_created := s.jobs_created + 1 })

/-- One iteration of the record loop of `ExcelImporter.import_to_database`
(exception-free path): resolve the equipment, then materialize the job when
an equipment came back. -/
def importRecord (year : Nat) (acc : DB × ImportSummary) (record : WorkRecord) :
    DB × ImportSummary :=
  let (eo, db, s) := create_or_update_equipment year acc.1 acc.2 record
  match eo with
  | some eid => create_job db s eid record
  | none => (db, s)

/-- `ExcelImporter.import_to_database` (exception-free path): an empty record
list appends `"No hay datos para importar"` and reports failure; otherwise all
records are processed in order and success is reported. -/
def import_to_database (year : Nat) (db : DB) (s : ImportSummary)
    (records : List WorkRecord) : Bool × DB × ImportSummary :=
  if records.isEmpty then
    (false, db, { s with errors := s.errors ++ ["No hay datos para importar"] })
  else
    let (db, s) := records.foldl (importRecord year) (db, s)
    (true, db, s)

/-- Where an injected exception fires while importing one record:
inside `_create_or_update_equipment` or inside `_create_job`. -/
inductive RaisePoint where
  | resolve
  | materialize
deriving DecidableEq, Repr

/-- A record paired with an exception oracle saying whether (and in which
helper) processing it raises. -/
abbrev ExcRecord := WorkRecord × Option RaisePoint

/-- `ExcelImporter._create_or_update_equipment` with an injected exception:
the helper's own `try/except` (src lines 412-414) catches anything raised in
its body, logs it and returns `None`; the raise is modelled as firing before
the helper's first database write.  No error string is appended. -/
def create_or_update_equipment_exc (year : Nat) (db : DB) (s : ImportSummary)
    (r : ExcRecord) : Option Nat × DB × ImportSummary :=
  if r.2 = some RaisePoint.resolve then (none, db, s)
  else create_or_update_equipment year db s r.1

/-- `ExcelImporter._create_job` with an injected exception: the helper's own
`try/except` (src lines 494-496) catches anything raised in its body, logs it
and returns `None`; the raise is modelled as firing before the first database
write.  No error string is appended. -/
def create_job_exc (db : DB) (s : ImportSummary) (equipmentId : Nat)
    (r : ExcRecord) : DB × ImportSummary :=
  if r.2 = some RaisePoint.materialize then (db, s)
  else create_job db s equipmentId r.1

/-- One iteration of the record loop of `ExcelImporter.import_to_database`
under the exception oracle.  The outer per-record `except` (src lines 362-365)
would append an error string, but it is only reached by an exception escaping
the two helpers, and each helper catches its own exceptions, so that branch
never fires for resolution/materialization failures. -/
def importRecordExc (year : Nat) (acc : DB × ImportSummary) (r : ExcRecord) :
    DB × ImportSummary :=
  let (eo, db, s) := create_or_update_equipment_exc year acc.1 acc.2 r
  match eo with
  | some eid => create_job_exc db s eid r
  | none => (db, s)

/-- `ExcelImporter.import_to_database` under the exception oracle. -/
def import_to_database_exc (year : Nat) (db : DB) (s : ImportSummary)
    (records : List ExcRecord) : Bool × DB × ImportSummary :=
  if records.isEmpty then
    (false, db, { s with errors := s.errors ++ ["No hay datos para importar"] })
  else
    let (db, s) := records.foldl (importRecordExc year) (db, s)
    (true, db, s)

/-- The dedup key of `clean_duplicate_jobs`: `(job.equipment.id, job.date_done)`. -/
def keyOfJob (j : Job) : Nat × Date :=
  (j.equipment, j.date_done)

/-- The run-length loop of `clean_duplicate_jobs` over the ordered job list:
a job whose key equals the previous job's key is marked for removal, any
other job becomes the new canonical job of its key.  Returns
`(duplicates_removed, jobs_to_keep, jobs_to_remove)`. -/
def cleanLoop : Option (Nat × Date) → List Job → Nat × List Job × List Job
  | _, [] => (0, [], [])
  | cur, j :: rest =>
      if some (keyOfJob j) = cur then
        let (c, ks, rs) := cleanLoop cur rest
        (c + 1, ks, j :: rs)
      else
        let (c, ks, rs) := cleanLoop (some (keyOfJob j)) rest
        (c, j :: ks, rs)

/-- `clean_duplicate_jobs` acting on the job list returned by the storage
collaborator's ordered scan `Job.select().order_by(Job.equipment,
Job.date_done, Job.id)`; the jobs in the third component are deleted and the
first component is returned. -/
def clean_duplicate_jobs (orderedJobs : List Job) : Nat × List Job × List Job :=
  cleanLoop none orderedJobs

/-- The in-place rewrite `_create_job` performs on a found job when the
incoming description differs (description and notes are replaced). -/
def jobUpd (r : WorkRecord) (j : Job) : Job :=
  if j.description ≠ r.description then
    { j with description := r.description
             notes := "Actualizado desde Excel - Cliente: " ++ r.client }
  else j

/-- Fold a sequence of (record, equipment-id) pairs as in-place rewrites over
one job. -/
def applyUpdates (j : Job) (rs : List (WorkRecord × Nat)) : Job :=
  rs.foldl (fun j a => jobUpd a.1 j) j

/-- Dedup key of a resolved record: the equipment id it resolved to, paired
with its date. -/
def akey (a : WorkRecord × Nat) : Nat × Date :=
  (a.2, a.1.date)

/-- Replay over one job of every rewrite a resolved batch would address to
its key. -/
def overlay (anns : List (WorkRecord × Nat)) (j : Job) : Job :=
  applyUpdates j (anns.filter (fun a => decide (akey a = keyOfJob j)))

/-- The job row `_create_job` inserts on a miss. -/
def newJobOf (n eid : Nat) (r : WorkRecord) : Job :=
  { id := n
    equipment := eid
    date_done := r.date
    description := r.description
    budget := 0
    next_service_days := none
    next_service_date := none
    notes := "Importado desde Excel - Cliente: " ++ r.client }

/-- The effect of `_create_job` on the job-side state alone:
`(jobs, nextJobId, jobs_created)`. -/
def jobStep (t : List Job × Nat × Nat) (a : WorkRecord × Nat) :
    List Job × Nat × Nat :=
  match t.1.find? (fun j => decide (j.equipment = a.2 ∧ j.date_done = a.1.date)) with
  | some j =>
      if j.description ≠ a.1.description then
        (t.1.map (fun j2 => if j2.id = j.id then
            { j2 with description := a.1.description
                      notes := "Actualizado desde Excel - Cliente: " ++ a.1.client }
          else j2), t.2.1, t.2.2)
      else t
  | none => (t.1 ++ [newJobOf t.2.1 a.2 a.1], t.2.1 + 1, t.2.2 + 1)

/-- The equipment-resolution pass of the import on its own: resolve each
record in order and pair it with the equipment id it resolved to. -/
def resolveRecords (year : Nat) : DB → ImportSummary → List WorkRecord →
    List (WorkRecord × Nat) × DB × ImportSummary
  | db, s, [] => ([], db, s)
  | db, s, r :: rs =>
      match create_or_update_equipment year db s r with
      | (some eid, db1, s1) =>
          let (anns, db2, s2) := resolveRecords year db1 s1 rs
          ((r, eid) :: anns, db2, s2)
      | (none, db1, s1) => resolveRecords year db1 s1 rs

/-- Id of the first equipment whose serial matches, if any. -/
def idOf (db : DB) (serial : String) : Option Nat :=
  (db.equipments.find? (fun e => decide (e.n_serie = serial))).map (fun e => e.id)

/-- Keep the first job of each key (specification-side description of what
the reconciler keeps). -/
def keepFirstAux (seen : List (Nat × Date)) : List Job → List Job
  | [] => []
  | j :: rest =>
      if keyOfJob j ∈ seen then keepFirstAux seen rest
      else j :: keepFirstAux (keyOfJob j :: seen) rest

/-- Drop the first job of each key, collecting every subsequent job sharing an
already-seen key (specification-side description of what the reconciler
deletes). -/
def removedAux (seen : List (Nat × Date)) : List Job → List Job
  | [] => []
  | j :: rest =>
      if keyOfJob j ∈ seen then j :: removedAux seen rest
      else removedAux (keyOfJob j :: seen) rest

/-- Strict chronological order on dates. -/
def dateLt (a b : Date) : Prop :=
  a.year < b.year ∨
  (a.year = b.year ∧ (a.month < b.month ∨ (a.month = b.month ∧ a.day < b.day)))

/-- Chronological order on dates. -/
def dateLe (a b : Date) : Prop :=
  dateLt a b ∨ a = b

/-- The `ORDER BY Job.equipment, Job.date_done, Job.id` relation of the
reconciler's scan. -/
def jobOrder (a b : Job) : Prop :=
  a.equipment < b.equipment ∨
  (a.equipment = b.equipment ∧
    (dateLt a.date_done b.date_done ∨
     (a.date_done = b.date_done ∧ a.id ≤ b.id)))

/-- Order on dedup keys induced by the scan order. -/
def keyLe (x y : Nat × Date) : Prop :=
  x.1 < y.1 ∨ (x.1 = y.1 ∧ dateLe x.2 y.2)

instance (a b : Date) : Decidable (dateLt a b) := by
  unfold dateLt; infer_instance

instance (a b : Date) : Decidable (dateLe a b) := by
  unfold dateLe; infer_instance

instance (a b : Job) : Decidable (jobOrder a b) := by
  unfold jobOrder; infer_instance

instance (x y : Nat × Date) : Decidable (keyLe x y) := by
  unfold keyLe; infer_instance

/-- Job-side fold of a resolved batch. -/
def jobsFold (t : List Job × Nat × Nat) (anns : List (WorkRecord × Nat)) :
    List Job × Nat × Nat :=
  anns.foldl jobStep t

/-- A job is fold-closed for a resolved batch, relative to an initial job
table: it is the result of applying every batch rewrite addressed to its key,
either to an initial job of the same key, or to the job row inserted at the
key's first occurrence in the batch. -/
def ClosedAt (jobs : List Job) (anns : List (WorkRecord × Nat)) (j : Job) : Prop :=
  (∃ x ∈ jobs, keyOfJob x = keyOfJob j ∧
      j = applyUpdates x (anns.filter (fun a => decide (akey a = keyOfJob j)))) ∨
  (keyOfJob j ∉ jobs.map keyOfJob ∧
   ∃ a₀ rs' m, anns.filter (fun a => decide (akey a = keyOfJob j)) = a₀ :: rs' ∧
      j = applyUpdates (newJobOf m a₀.2 a₀.1) rs')

/-- No two jobs share an (equipment, date_done) dedup key. -/
def KeyDistinct (jobs : List Job) : Prop :=
  jobs.Pairwise (fun a b => keyOfJob a ≠ keyOfJob b)

/-- No two jobs share a primary key. -/
def IdDistinct (jobs : List Job) : Prop :=
  jobs.Pairwise (fun a b => a.id ≠ b.id)

/-- Every job id is below the auto-increment counter. -/
def IdsBelow (jobs : List Job) (n : Nat) : Prop :=
  ∀ j ∈ jobs, j.id < n

/-- A job with its description and notes blanked: the fields an in-place
rewrite can never change. -/
def jobCore (j : Job) : Job :=
  { j with description := "", notes := "" }

/-- Example data: the spec's end-to-end scenario workbook. -/
def scenarioHeader : Row :=
  [some (.str "EQUIPO"), some (.str "FECHA"), some (.str "REPUESTOS"),
   some (.str "MANO DE OBRA")]

/-- Example data: first scenario data row. -/
def scenarioRow1 : Row :=
  [some (.str "Bomba X1"), some (.str "2024-01-10"), some (.str "Filtro"),
   some (.str "Revision")]

/-- Example data: scenario continuation row. -/
def scenarioRow2 : Row :=
  [none, none, some (.str "Correa"), none]

/-- Example data: the scenario workbook with the single sheet "Acme Corp". -/
def scenarioWb : Workbook :=
  [("Acme Corp", [scenarioHeader, scenarioRow1, scenarioRow2])]

/-- Example data: rows for the continuation example (date row with parts "A",
then a no-date row with parts "B"). -/
def contRows : List Row :=
  [scenarioHeader,
   [some (.str "E1"), some (.str "2024-01-10"), some (.str "A"), none],
   [none, none, some (.str "B"), none]]

/-- Example data: the single record the continuation example produces. -/
def contResult : WorkRecord :=
  ⟨"C", "E1", ⟨2024, 1, 10⟩, "A\nB", "", "REPUESTOS:\nA\nB"⟩

/-- Example data: a record whose resolution raises under the exception oracle. -/
def excRecA : WorkRecord :=
  ⟨"Acme", "E1", ⟨2024, 1, 10⟩, "A", "", "REPUESTOS:\nA"⟩

/-- Example data: a well-behaved record following the failing one. -/
def excRecB : WorkRecord :=
  ⟨"Acme", "E2", ⟨2024, 1, 11⟩, "B", "", "REPUESTOS:\nB"⟩

/-- Example data: a batch whose first record raises during resolution. -/
def excBatch : List ExcRecord :=
  [(excRecA, some RaisePoint.resolve), (excRecB, none)]

/-- Example data: a client row already present before an import. -/
def c3Client : Client :=
  ⟨0, "Beta", "nota"⟩

/-- Example data: an equipment row whose client link is already set. -/
def c3Equip : Equipment :=
  ⟨0, "Bomba", "X1", 2020, "E1", some "Beta", some 0, "nota"⟩

/-- Example data: a store holding `c3Client` and `c3Equip`. -/
def c3DB : DB :=
  ⟨[c3Client], [c3Equip], [], 1, 1, 0⟩

/-- Example data: a record hitting `c3Equip` by serial. -/
def c3Rec : WorkRecord :=
  ⟨"Acme", "E1", ⟨2024, 1, 10⟩, "A", "", "REPUESTOS:\nA"⟩

/-- Example data: three jobs with ids 1, 2, 3 sharing one (equipment, date)
key, listed in scan order. -/
def c9Job1 : Job :=
  ⟨1, 5, ⟨2024, 1, 10⟩, "d1", 0, none, none, "n1"⟩

/-- Example data: duplicate job with id 2. -/
def c9Job2 : Job :=
  ⟨2, 5, ⟨2024, 1, 10⟩, "d2", 0, none, none, "n2"⟩

/-- Example data: duplicate job with id 3. -/
def c9Job3 : Job :=
  ⟨3, 5, ⟨2024, 1, 10⟩, "d3", 0, none, none, "n3"⟩

/-- Example data: the ordered scan holding the three duplicate jobs. -/
def c9Jobs : List Job :=
  [c9Job1, c9Job2, c9Job3]

/-- C10: `import_to_database` on an empty parsed-record list appends the
error string "No hay datos para importar" and reports failure, so the caller
always sees a non-empty error list; the store is untouched. -/
theorem c10_empty_import_error (year : Nat) (db : DB) (s : ImportSummary) :
    import_to_database year db s [] =
      (false, db, { s with errors := s.errors ++ ["No hay datos para importar"] }) ∧
    (import_to_database year db s []).2.2.errors ≠ [] := by
  refine ⟨rfl, ?_⟩
  simp [import_to_database]

/-- C4 counterexample: on the spec's end-to-end scenario texts, the
synthesized description is built with the Spanish prefixes "MANO DE OBRA:"
and "REPUESTOS:", and the claimed text
"LABOR:\nRevision\n\nPARTS:\nFiltro\nCorrea" does not occur in it. -/
theorem c4_counterexample :
    build_description "Filtro\nCorrea" "Revision" =
      "MANO DE OBRA:\nRevision\n\nREPUESTOS:\nFiltro\nCorrea" ∧
    strContains (build_description "Filtro\nCorrea" "Revision")
      "LABOR:\nRevision\n\nPARTS:\nFiltro\nCorrea" = false := by
  refine ⟨rfl, by decide⟩

/-- C4 (amended): the synthesized description renders the labor text first,
prefixed "MANO DE OBRA:", then the parts text, prefixed "REPUESTOS:", the two
sections joined by a blank line and an empty section omitted entirely; the
spec's end-to-end scenario yields one record for equipment "Bomba X1" dated
2024-01-10 whose description is
"MANO DE OBRA:\nRevision\n\nREPUESTOS:\nFiltro\nCorrea", with brand "Bomba"
and model "X1" split from the label. -/
theorem c4_description_structure :
    (∀ repuestos mano_obra : String,
      build_description repuestos mano_obra =
        if mano_obra ≠ "" then
          if repuestos ≠ "" then
            "MANO DE OBRA:\n" ++ mano_obra ++ ("\n\n" ++ ("REPUESTOS:\n" ++ repuestos))
          else "MANO DE OBRA:\n" ++ mano_obra
        else if repuestos ≠ "" then "REPUESTOS:\n" ++ repuestos else "") ∧
    parse_excel scenarioWb =
      [⟨"Acme Corp", "Bomba X1", ⟨2024, 1, 10⟩, "Filtro\nCorrea", "Revision",
        "MANO DE OBRA:\nRevision\n\nREPUESTOS:\nFiltro\nCorrea"⟩] ∧
    extract_brand "Bomba X1" = "Bomba" ∧ extract_model "Bomba X1" = "X1" := by
  refine ⟨?_, by decide, by decide, by decide⟩
  intro r m
  by_cases hm : m = "" <;> by_cases hr : r = "" <;>
    simp [build_description, hm, hr, String.intercalate, String.intercalate.go,
      String.append_assoc]

/-- C8: `parse_date` on a text value tries `%Y-%m-%d`, `%d/%m/%Y`,
`%m/%d/%Y`, then `%Y-%m-%d %H:%M:%S` in that fixed order and returns the
first format's result, `none` when all fail; consequently "01/02/2024" is
read day-first as 2024-02-01, and native date/datetime cells pass through
directly. -/
theorem c8_parse_date_format_order :
    (∀ (s : String) (d : Date), fmtYmd (strTrim s) = some d →
        parse_date (.str s) = some d) ∧
    (∀ (s : String) (d : Date), fmtYmd (strTrim s) = none → fmtDmy (strTrim s) = some d →
        parse_date (.str s) = some d) ∧
    (∀ (s : String) (d : Date), fmtYmd (strTrim s) = none → fmtDmy (strTrim s) = none →
        fmtMdy (strTrim s) = some d → parse_date (.str s) = some d) ∧
    (∀ (s : String) (d : Date), fmtYmd (strTrim s) = none → fmtDmy (strTrim s) = none →
        fmtMdy (strTrim s) = none → fmtYmdHms (strTrim s) = some d →
        parse_date (.str s) = some d) ∧
    (∀ s : String, fmtYmd (strTrim s) = none → fmtDmy (strTrim s) = none →
        fmtMdy (strTrim s) = none → fmtYmdHms (strTrim s) = none →
        parse_date (.str s) = none) ∧
    parse_date (.str "01/02/2024") = some ⟨2024, 2, 1⟩ ∧
    (∀ d : Date, parse_date (.dateCell d) = some d) ∧
    (∀ (d : Date) (h m sec : Nat), parse_date (.datetimeCell d h m sec) = some d) := by
  refine ⟨?_, ?_, ?_, ?_, ?_, by decide, fun d => rfl, fun d h m sec => rfl⟩
  · intro s d h1
    simp [parse_date, dateFormats, h1]
  · intro s d h1 h2
    simp [parse_date, dateFormats, h1, h2]
  · intro s d h1 h2 h3
    simp [parse_date, dateFormats, h1, h2, h3]
  · intro s d h1 h2 h3 h4
    simp [parse_date, dateFormats, h1, h2, h3, h4]
  · intro s h1 h2 h3 h4
    simp [parse_date, dateFormats, h1, h2, h3, h4]

/-- C8 witness: the theorem applied at "01/02/2024", whose first format
fails and whose second format succeeds with 2024-02-01. -/
theorem c8_parse_date_format_order_witness :
    parse_date (.str "01/02/2024") = some ⟨2024, 2, 1⟩ :=
  c8_parse_date_format_order.2.1 "01/02/2024" ⟨2024, 2, 1⟩ (by decide) (by decide)

/-- C7: `find_header_row` returns the index of the first row whose joined
uppercased cell text contains "EQUIPO" together with "FECHA" or "MANO"
(`rowQualifies`), `none` exactly when no row qualifies, and a sheet with no
qualifying row parses to zero records with no error. -/
theorem c7_find_header_row (rows : List Row) :
    (∀ i, find_header_row rows = some i →
      i < rows.length ∧ rowQualifies (rows.getD i []) = true ∧
      ∀ j, j < i → rowQualifies (rows.getD j []) = false) ∧
    (find_header_row rows = none ↔ ∀ r ∈ rows, rowQualifies r = false) ∧
    (∀ name, find_header_row rows = none → parse_sheet rows name = []) := by
  induction rows with
  | nil =>
      refine ⟨fun i h => by simp [find_header_row] at h, by simp [find_header_row], ?_⟩
      intro name _
      rfl
  | cons r rs ih =>
      by_cases hq : rowQualifies r
      · refine ⟨?_, ?_, ?_⟩
        · intro i h
          simp only [find_header_row, hq, if_pos] at h
          obtain rfl : (0 : Nat) = i := Option.some.injEq _ _ ▸ h
          exact ⟨by simp, by simpa using hq, fun j hj => absurd hj (by omega)⟩
        · constructor
          · intro h
            simp [find_header_row, hq] at h
          · intro h
            exact absurd (h r (by simp)) (by simp [hq])
        · intro name h
          simp [find_header_row, hq] at h
      · refine ⟨?_, ?_, ?_⟩
        · intro i h
          simp only [find_header_row, hq, if_neg, Bool.false_eq_true,
            not_false_iff] at h
          cases hfr : find_header_row rs with
          | none =>
              rw [hfr] at h
              simp at h
          | some i0 =>
              rw [hfr] at h
              have hi : i0 + 1 = i := by
                simpa using h
              subst hi
              obtain ⟨h1, h2, h3⟩ := ih.1 i0 hfr
              refine ⟨by simpa using h1, by simpa using h2, ?_⟩
              intro j hj
              match j with
              | 0 => simpa using hq
              | j + 1 => exact (by simpa using h3 j (by omega))
        · constructor
          · intro h
            simp only [find_header_row, hq, if_neg, Bool.false_eq_true,
              not_false_iff] at h
            have hrs : find_header_row rs = none := by
              cases hfr : find_header_row rs with
              | none => rfl
              | some i0 => rw [hfr] at h; simp at h
            intro x hx
            rcases List.mem_cons.mp hx with rfl | hx
            · simpa using hq
            · exact (ih.2.1.mp hrs) x hx
          · intro h
            have hrs : find_header_row rs = none :=
              ih.2.1.mpr (fun x hx => h x (List.mem_cons_of_mem _ hx))
            simp [find_header_row, hq, hrs]
        · intro name h
          have : find_header_row (r :: rs) = none := h
          simp [parse_sheet, this]

/-- C7 witness: the theorem applied to a sheet holding only the two scenario
data rows, which have no header row, so parsing yields zero records. -/
theorem c7_find_header_row_witness :
    parse_sheet [scenarioRow1, scenarioRow2] "Acme Corp" = [] :=
  (c7_find_header_row [scenarioRow1, scenarioRow2]).2.2 "Acme Corp" (by decide)

/-- Membership in a flushed output list: either an old record, or the
finalization of the open record, which must have content. -/
theorem flushWork_mem {data : List WorkRecord} {cw : Option WorkRecord}
    {w : WorkRecord} (h : w ∈ flushWork data cw) :
    w ∈ data ∨ ∃ w0, cw = some w0 ∧ hasContent w0 ∧ w = finalizeWork w0 := by
  cases cw with
  | none => exact Or.inl h
  | some w0 =>
      rw [show flushWork data (some w0) =
          if hasContent w0 then data ++ [finalizeWork w0] else data from rfl] at h
      by_cases hc : hasContent w0
      · rw [if_pos hc] at h
        rcases List.mem_append.mp h with h | h
        · exact Or.inl h
        · exact Or.inr ⟨w0, rfl, hc, by simpa using h⟩
      · rw [if_neg hc] at h
        exact Or.inl h

/-- One segmenter step only adds the finalized open record (if contentful)
to the output list. -/
theorem segStep_data_mem (client : String) (st : SegState) (row : Row)
    {w : WorkRecord} (h : w ∈ (segStep client st row).data) :
    w ∈ st.data ∨ ∃ w0, st.current_work = some w0 ∧ hasContent w0 ∧
      w = finalizeWork w0 := by
  unfold segStep at h
  rcases hd : colDate row 1 with _ | d
  · rw [hd] at h
    simp only [] at h
    split at h
    · split at h
      · exact Or.inl (by simpa using h)
      · exact Or.inl (by simpa using h)
    · exact Or.inl (by simpa using h)
  · rw [hd] at h
    rcases hc0 : colText row 0 with _ | e
    · rw [hc0] at h
      rcases hcq : st.current_equipment with _ | ceq
      · rw [hcq] at h
        simp only [] at h
        split at h
        · split at h
          · exact Or.inl (by simpa using h)
          · exact Or.inl (by simpa using h)
        · exact Or.inl (by simpa using h)
      · rw [hcq] at h
        refine flushWork_mem (w := w) ?_
        simpa using h
    · rw [hc0] at h
      refine flushWork_mem (w := w) ?_
      simpa using h

/-- Across the whole row fold, every emitted record is the finalization of
some contentful open record (or was present initially). -/
theorem segFold_data_mem (client : String) (rows : List Row) :
    ∀ (st : SegState) (w : WorkRecord),
      w ∈ (rows.foldl (segStep client) st).data →
      w ∈ st.data ∨ ∃ w0, hasContent w0 ∧ w = finalizeWork w0 := by
  induction rows with
  | nil => exact fun st w h => Or.inl h
  | cons r rs ih =>
      intro st w h
      rcases ih (segStep client st r) w h with h | h
      · rcases segStep_data_mem client st r h with h | ⟨w0, _, hc, he⟩
        · exact Or.inl h
        · exact Or.inr ⟨w0, hc, he⟩
      · exact Or.inr h

/-- C5: a row with no parsed date but with parts or labor text, while a work
record is open, is merged as a continuation — its cleaned col2 is appended to
the open record's parts and its cleaned col3 to its labor, each newline-joined
independently, emitting nothing; concretely, a date row with parts "A"
followed by a no-date row with parts "B" yields one record with parts text
"A\nB". -/
theorem c5_continuation_row (client : String) (st : SegState) (row : Row)
    (w : WorkRecord)
    (hdate : colDate row 1 = none)
    (hcontent : colText row 2 ≠ none ∨ colText row 3 ≠ none)
    (hw : st.current_work = some w) :
    (segStep client st row).current_work = some
      { w with
          repuestos :=
            (match colText row 2 with
             | some r => appendLine w.repuestos r
             | none => w.repuestos)
          mano_obra :=
            (match colText row 3 with
             | some m => appendLine w.mano_obra m
             | none => w.mano_obra) } ∧
    (segStep client st row).data = st.data ∧
    extract_equipment_data contRows "C" 0 = [contResult] := by
  refine ⟨?_, ?_, by decide⟩ <;>
  · rcases hrep : colText row 2 with _ | r <;> rcases hman : colText row 3 with _ | m
    · rw [hrep, hman] at hcontent
      rcases hcontent with h | h <;> exact absurd rfl h
    all_goals
      simp [segStep, hdate, hrep, hman, hw]

/-- C5 witness: the continuation step applied at a concrete open record and
no-date row, projecting the concrete two-row example. -/
theorem c5_continuation_row_witness :
    extract_equipment_data contRows "C" 0 = [contResult] :=
  (c5_continuation_row "C"
    ⟨some "E1", some ⟨2024, 1, 10⟩, some ⟨"C", "E1", ⟨2024, 1, 10⟩, "A", "", ""⟩, []⟩
    [none, none, some (.str "B"), none]
    ⟨"C", "E1", ⟨2024, 1, 10⟩, "A", "", ""⟩
    (by decide) (Or.inl (by decide)) rfl).2.2

/-- C6: the segmenter emits a record only if it accumulated non-empty parts
or labor text, so a date-bearing row that opens a work record which never
accumulates any text contributes no record to the output. -/
theorem c6_emit_only_with_content (rows : List Row) (client : String)
    (hidx : Nat) :
    ∀ w ∈ extract_equipment_data rows client hidx,
      w.repuestos ≠ "" ∨ w.mano_obra ≠ "" := by
  intro w h
  unfold extract_equipment_data at h
  rcases flushWork_mem h with h | ⟨w0, _, hc, rfl⟩
  · rcases segFold_data_mem client _ _ w h with h | ⟨w0, hc, rfl⟩
    · simp at h
    · simpa [finalizeWork, hasContent] using hc
  · simpa [finalizeWork, hasContent] using hc

/-- C6 witness: the theorem applied to the record emitted by the concrete
two-row example. -/
theorem c6_emit_only_with_content_witness :
    contResult.repuestos ≠ "" ∨ contResult.mano_obra ≠ "" :=
  c6_emit_only_with_content contRows "C" 0 contResult (by decide)

/-- The client resolver touches only the client table and the
`clients_created` counter. -/
theorem cgc_frame (db : DB) (s : ImportSummary) (n : String) :
    (create_or_get_client db s n).2.1.equipments = db.equipments ∧
    (create_or_get_client db s n).2.1.jobs = db.jobs ∧
    (create_or_get_client db s n).2.1.nextEquipmentId = db.nextEquipmentId ∧
    (create_or_get_client db s n).2.1.nextJobId = db.nextJobId ∧
    (create_or_get_client db s n).2.2.errors = s.errors ∧
    (create_or_get_client db s n).2.2.equipments_created = s.equipments_created ∧
    (create_or_get_client db s n).2.2.equipments_updated = s.equipments_updated ∧
    (create_or_get_client db s n).2.2.jobs_created = s.jobs_created := by
  unfold create_or_get_client
  split
  · exact ⟨rfl, rfl, rfl, rfl, rfl, rfl, rfl, rfl⟩
  · simp only []
    cases hf : List.find? (fun c => decide (c.nombre = strTrim n)) db.clients <;>
      simp [hf]

/-- The equipment resolver never touches the job table, the job counter or
the error list. -/
theorem cue_frame (year : Nat) (db : DB) (s : ImportSummary) (r : WorkRecord) :
    (create_or_update_equipment year db s r).2.1.jobs = db.jobs ∧
    (create_or_update_equipment year db s r).2.1.nextJobId = db.nextJobId ∧
    (create_or_update_equipment year db s r).2.2.errors = s.errors ∧
    (create_or_update_equipment year db s r).2.2.jobs_created = s.jobs_created := by
  obtain ⟨h1, h2, h3, h4, h5, h6, h7, h8⟩ := cgc_frame db s r.client
  unfold create_or_update_equipment
  simp only []
  rcases hc : create_or_get_client db s r.client with ⟨cid, db1, s1⟩
  rw [hc] at h1 h2 h3 h4 h5 h6 h7 h8
  simp only [] at h1 h2 h3 h4 h5 h6 h7 h8 ⊢
  split
  · split <;> exact ⟨h2, h4, h5, h8⟩
  · exact ⟨h2, h4, h5, h8⟩

/-- The job materializer never touches the error list. -/
theorem cj_errors (db : DB) (s : ImportSummary) (eid : Nat) (r : WorkRecord) :
    (create_job db s eid r).2.errors = s.errors := by
  unfold create_job
  split
  · split <;> rfl
  · rfl

/-- One record of the import loop never touches the error list, with or
without an injected exception. -/
theorem importRecordExc_errors (year : Nat) (acc : DB × ImportSummary)
    (r : ExcRecord) : (importRecordExc year acc r).2.errors = acc.2.errors := by
  unfold importRecordExc create_or_update_equipment_exc
  simp only []
  by_cases hr : r.2 = some RaisePoint.resolve
  · rw [if_pos hr]
  · rw [if_neg hr]
    rcases hc : create_or_update_equipment year acc.1 acc.2 r.1 with ⟨eo, db1, s1⟩
    have herr := (cue_frame year acc.1 acc.2 r.1).2.2.1
    rw [hc] at herr
    simp only [] at herr ⊢
    cases eo with
    | none => exact herr
    | some eid =>
        simp only []
        unfold create_job_exc
        by_cases hm : r.2 = some RaisePoint.materialize
        · rw [if_pos hm]
          exact herr
        · rw [if_neg hm]
          rw [cj_errors db1 s1 eid r.1]
          exact herr

/-- The record fold never touches the error list. -/
theorem importExcFold_errors (year : Nat) (records : List ExcRecord) :
    ∀ acc : DB × ImportSummary,
      (records.foldl (importRecordExc year) acc).2.errors = acc.2.errors := by
  induction records with
  | nil => exact fun acc => rfl
  | cons r rs ih =>
      intro acc
      rw [List.foldl_cons, ih (importRecordExc year acc r),
        importRecordExc_errors year acc r]

/-- C2 counterexample: a batch whose first record raises during resolution
ends with an empty error list (no message mentioning the failing equipment is
appended), while the following record is still imported. -/
theorem c2_counterexample :
    excBatch.head? = some (excRecA, some RaisePoint.resolve) ∧
    (import_to_database_exc 2024 emptyDB initSummary excBatch).2.2.errors = [] ∧
    (import_to_database_exc 2024 emptyDB initSummary excBatch).2.2.jobs_created = 1 ∧
    (import_to_database_exc 2024 emptyDB initSummary excBatch).2.1.jobs.map
      (fun j => j.date_done) = [⟨2024, 1, 11⟩] := by
  decide

/-- C2 (amended): an exception raised while resolving or materializing one
record is caught inside the raising helper, which returns `None`: the record
is skipped (a resolution failure skips the whole record, a materialization
failure leaves its job uncreated), processing continues with the remaining
records, and no message is appended to the summary's errors list — the
failure is only logged, so a non-empty batch always ends with the error list
it started with. -/
theorem c2_record_failure_swallowed :
    (∀ (year : Nat) (db : DB) (s : ImportSummary) (r : WorkRecord),
        importRecordExc year (db, s) (r, some RaisePoint.resolve) = (db, s)) ∧
    (∀ (db : DB) (s : ImportSummary) (eid : Nat) (r : WorkRecord),
        create_job_exc db s eid (r, some RaisePoint.materialize) = (db, s)) ∧
    (∀ (year : Nat) (db : DB) (s : ImportSummary) (records : List ExcRecord),
        records ≠ [] →
        (import_to_database_exc year db s records).2.2.errors = s.errors) ∧
    (∀ (year : Nat) (db : DB) (s : ImportSummary) (r : WorkRecord)
        (rest : List ExcRecord), rest ≠ [] →
        import_to_database_exc year db s ((r, some RaisePoint.resolve) :: rest) =
          import_to_database_exc year db s rest) := by
  refine ⟨fun year db s r => rfl, fun db s eid r => rfl, ?_, ?_⟩
  · intro year db s records hne
    unfold import_to_database_exc
    rw [if_neg (by simpa [List.isEmpty_iff] using hne)]
    exact importExcFold_errors year records (db, s)
  · intro year db s r rest hne
    unfold import_to_database_exc
    rw [if_neg (by simp [List.isEmpty_iff]), if_neg (by simpa [List.isEmpty_iff] using hne)]
    rw [List.foldl_cons]
    rfl

/-- C2 witness: the amended theorem applied to the concrete failing batch —
its error list ends as it started (empty). -/
theorem c2_record_failure_swallowed_witness :
    (import_to_database_exc 2024 emptyDB initSummary excBatch).2.2.errors =
      initSummary.errors :=
  c2_record_failure_swallowed.2.2.1 2024 emptyDB initSummary excBatch (by decide)

/-- C3 counterexample: a record hitting an equipment whose client link is
already set still increments `equipments_updated` (the claim says such a hit
must not count as an update). -/
theorem c3_counterexample :
    c3DB.equipments.find? (fun e2 => decide (e2.n_serie = c3Rec.equipment)) =
      some c3Equip ∧
    c3Equip.client = some 0 ∧
    (create_or_update_equipment 2024 c3DB initSummary c3Rec).2.2.equipments_updated
      = 1 := by
  decide

/-- C3 (amended): on a serial hit, `equipments_updated` is incremented on
every hit, whether or not anything is back-filled; the found equipment's
client link is rewritten (together with `propietario`) exactly when it had no
linked client and a client resolved; and a hit never changes any equipment's
id, serial, brand, model, year or notes. -/
theorem c3_hit_always_counts_update (year : Nat) (db : DB) (s : ImportSummary)
    (record : WorkRecord) (e : Equipment)
    (hfind : db.equipments.find? (fun e2 => decide (e2.n_serie = record.equipment))
      = some e) :
    (create_or_update_equipment year db s record).1 = some e.id ∧
    (create_or_update_equipment year db s record).2.2.equipments_updated =
      s.equipments_updated + 1 ∧
    (create_or_update_equipment year db s record).2.2.equipments_created =
      s.equipments_created ∧
    (create_or_update_equipment year db s record).2.1.equipments.map
        (fun e2 => (e2.id, e2.n_serie, e2.marca, e2.modelo, e2.anio, e2.notes)) =
      db.equipments.map
        (fun e2 => (e2.id, e2.n_serie, e2.marca, e2.modelo, e2.anio, e2.notes)) ∧
    ((e.client = none ∧ ((create_or_get_client db s record.client).1).isSome) →
      (create_or_update_equipment year db s record).2.1.equipments =
        db.equipments.map (fun e2 =>
          if e2.id = e.id then
            { e2 with client := (create_or_get_client db s record.client).1
                      propietario := some record.client }
          else e2)) ∧
    (¬ (e.client = none ∧ ((create_or_get_client db s record.client).1).isSome) →
      (create_or_update_equipment year db s record).2.1.equipments =
        db.equipments) := by
  obtain ⟨h1, h2, h3, h4, h5, h6, h7, h8⟩ := cgc_frame db s record.client
  unfold create_or_update_equipment
  simp only []
  rcases hc : create_or_get_client db s record.client with ⟨cid, db1, s1⟩
  rw [hc] at h1 h2 h3 h4 h5 h6 h7 h8
  simp only [] at h1 h2 h3 h4 h5 h6 h7 h8 ⊢
  simp only [h1, hfind]
  by_cases hb : e.client = none ∧ cid.isSome = true
  · rw [if_pos hb]
    refine ⟨trivial, by rw [h7], h6, ?_, fun _ => rfl, fun hnb => absurd hb hnb⟩
    show List.map _ (List.map _ db.equipments) = _
    rw [List.map_map]
    refine List.map_congr_left (fun a _ => ?_)
    by_cases ha : a.id = e.id <;> simp [ha, Function.comp]
  · rw [if_neg hb]
    exact ⟨trivial, by rw [h7], h6, by rw [h1], fun hb2 => absurd hb2 hb, fun _ => h1⟩

/-- C3 witness: the amended theorem applied at the concrete store whose
equipment already has a linked client. -/
theorem c3_hit_always_counts_update_witness :
    (create_or_update_equipment 2024 c3DB initSummary c3Rec).2.2.equipments_updated
      = initSummary.equipments_updated + 1 :=
  (c3_hit_always_counts_update 2024 c3DB initSummary c3Rec c3Equip (by decide)).2.1

/-- The scan order refines the key order. -/
theorem jobOrder_keyLe {a b : Job} (h : jobOrder a b) :
    keyLe (keyOfJob a) (keyOfJob b) := by
  rcases a with ⟨ida, eqa, ⟨ya, ma, da⟩, _, _, _, _, _⟩
  rcases b with ⟨idb, eqb, ⟨yb, mb, db2⟩, _, _, _, _, _⟩
  unfold jobOrder dateLt at h
  unfold keyLe keyOfJob dateLe dateLt
  simp only [Date.mk.injEq] at h ⊢
  omega

/-- The key order is antisymmetric. -/
theorem keyLe_antisymm {x y : Nat × Date} (h1 : keyLe x y) (h2 : keyLe y x) :
    x = y := by
  rcases x with ⟨xe, ⟨xy, xm, xd⟩⟩
  rcases y with ⟨ye, ⟨yy, ym, yd⟩⟩
  unfold keyLe dateLe dateLt at h1 h2
  simp only [Date.mk.injEq, Prod.mk.injEq] at h1 h2 ⊢
  omega

/-- The run-length loop's removal count is the length of its removal list. -/
theorem cleanLoop_count (jobs : List Job) :
    ∀ cur : Option (Nat × Date),
      (cleanLoop cur jobs).1 = (cleanLoop cur jobs).2.2.length := by
  induction jobs with
  | nil => intro cur; rfl
  | cons j rest ih =>
      intro cur
      by_cases he : some (keyOfJob j) = cur <;>
        simp [cleanLoop, he, ih]

/-- Over a scan-ordered job list, the run-length loop (which only remembers
the previous key) computes exactly the keep-first-per-key split: `seen` and
`cur` are linked by the invariant that a seen key occurring further down can
only be the current key. -/
theorem cleanLoop_keepFirst (jobs : List Job) :
    ∀ (cur : Option (Nat × Date)) (seen : List (Nat × Date)),
    jobs.Pairwise jobOrder →
    (∀ j ∈ jobs, (keyOfJob j ∈ seen ↔ some (keyOfJob j) = cur)) →
    (∀ j ∈ jobs, ∀ k, cur = some k → keyLe k (keyOfJob j)) →
    (cleanLoop cur jobs).2.1 = keepFirstAux seen jobs ∧
    (cleanLoop cur jobs).2.2 = removedAux seen jobs := by
  induction jobs with
  | nil => exact fun cur seen _ _ _ => ⟨rfl, rfl⟩
  | cons j rest ih =>
      intro cur seen hpw hseen hcur
      obtain ⟨hhead, htail⟩ := List.pairwise_cons.mp hpw
      by_cases he : some (keyOfJob j) = cur
      · have hmem : keyOfJob j ∈ seen := (hseen j (by simp)).mpr he
        obtain ⟨ih1, ih2⟩ := ih cur seen htail
          (fun j' hj' => hseen j' (by simp [hj']))
          (fun j' hj' k hk => hcur j' (by simp [hj']) k hk)
        constructor
        · simp [cleanLoop, he, keepFirstAux, hmem, ih1]
        · simp [cleanLoop, he, removedAux, hmem, ih2]
      · have hnot : keyOfJob j ∉ seen := fun hmem => he ((hseen j (by simp)).mp hmem)
        obtain ⟨ih1, ih2⟩ := ih (some (keyOfJob j)) (keyOfJob j :: seen) htail
          (fun j' hj' => by
            constructor
            · intro hmem
              rcases List.mem_cons.mp hmem with hh | hh
              · simp [hh]
              · have hc : some (keyOfJob j') = cur := (hseen j' (by simp [hj'])).mp hh
                have hk1 : keyLe (keyOfJob j') (keyOfJob j) :=
                  hcur j (by simp) (keyOfJob j') hc.symm
                have hk2 : keyLe (keyOfJob j) (keyOfJob j') :=
                  jobOrder_keyLe (hhead j' hj')
                have : keyOfJob j' = keyOfJob j := keyLe_antisymm hk1 hk2
                simp [this]
            · intro hh
              have : keyOfJob j' = keyOfJob j := by simpa using hh
              simp [this])
          (fun j' hj' k hk => by
            have : k = keyOfJob j := by simpa using hk.symm
            subst this
            exact jobOrder_keyLe (hhead j' hj'))
        constructor
        · simp [cleanLoop, he, keepFirstAux, hnot, ih1]
        · simp [cleanLoop, he, removedAux, hnot, ih2]

/-- C9: over the scan-ordered persisted jobs, `clean_duplicate_jobs` keeps
the first job seen for each (equipment, date_done) key, deletes every
subsequent job sharing that key, and returns the number of deleted jobs;
given jobs with ids 1, 2, 3 sharing one key it deletes ids 2 and 3, keeps
id 1, and returns 2. -/
theorem c9_clean_duplicates (jobs : List Job)
    (hsorted : jobs.Pairwise jobOrder) :
    (clean_duplicate_jobs jobs).2.1 = keepFirstAux [] jobs ∧
    (clean_duplicate_jobs jobs).2.2 = removedAux [] jobs ∧
    (clean_duplicate_jobs jobs).1 = (removedAux [] jobs).length ∧
    clean_duplicate_jobs c9Jobs = (2, [c9Job1], [c9Job2, c9Job3]) := by
  obtain ⟨h1, h2⟩ := cleanLoop_keepFirst jobs none []
    hsorted (by simp) (by simp)
  refine ⟨h1, h2, ?_, by decide⟩
  rw [show (clean_duplicate_jobs jobs).1 = (cleanLoop none jobs).1 from rfl,
    cleanLoop_count jobs none, h2]

/-- C9 witness: the theorem applied to the concrete ordered scan with ids
1, 2, 3 sharing one key. -/
theorem c9_clean_duplicates_witness :
    clean_duplicate_jobs c9Jobs = (2, [c9Job1], [c9Job2, c9Job3]) :=
  (c9_clean_duplicates c9Jobs (by decide)).2.2.2

/-- An in-place rewrite keeps the job's primary key. -/
theorem jobUpd_id (r : WorkRecord) (j : Job) : (jobUpd r j).id = j.id := by
  unfold jobUpd; split <;> rfl

/-- An in-place rewrite keeps the job's dedup key. -/
theorem jobUpd_key (r : WorkRecord) (j : Job) :
    keyOfJob (jobUpd r j) = keyOfJob j := by
  unfold jobUpd; split <;> rfl

/-- After an in-place rewrite the description always equals the record's. -/
theorem jobUpd_desc (r : WorkRecord) (j : Job) :
    (jobUpd r j).description = r.description := by
  unfold jobUpd
  split
  · rfl
  · next h => exact not_not.mp h

/-- A rewrite by a record whose description the job already carries is the
identity. -/
theorem jobUpd_of_desc_eq {r : WorkRecord} {j : Job}
    (h : j.description = r.description) : jobUpd r j = j := by
  unfold jobUpd
  rw [if_neg (by simpa using h)]

/-- An in-place rewrite keeps everything but description and notes. -/
theorem jobUpd_core (r : WorkRecord) (j : Job) :
    jobCore (jobUpd r j) = jobCore j := by
  unfold jobUpd jobCore; split <;> rfl

theorem applyUpdates_nil (j : Job) : applyUpdates j [] = j := rfl

theorem applyUpdates_cons (j : Job) (a : WorkRecord × Nat)
    (rs : List (WorkRecord × Nat)) :
    applyUpdates j (a :: rs) = applyUpdates (jobUpd a.1 j) rs := rfl

theorem applyUpdates_append (j : Job) (rs : List (WorkRecord × Nat))
    (a : WorkRecord × Nat) :
    applyUpdates j (rs ++ [a]) = jobUpd a.1 (applyUpdates j rs) := by
  unfold applyUpdates
  rw [List.foldl_append]
  rfl

/-- A rewrite chain keeps the job's dedup key. -/
theorem applyUpdates_key (rs : List (WorkRecord × Nat)) :
    ∀ j : Job, keyOfJob (applyUpdates j rs) = keyOfJob j := by
  induction rs with
  | nil => exact fun j => rfl
  | cons a rs ih =>
      intro j
      rw [applyUpdates_cons, ih, jobUpd_key]

/-- A rewrite chain keeps the job's primary key. -/
theorem applyUpdates_id (rs : List (WorkRecord × Nat)) :
    ∀ j : Job, (applyUpdates j rs).id = j.id := by
  induction rs with
  | nil => exact fun j => rfl
  | cons a rs ih =>
      intro j
      rw [applyUpdates_cons, ih, jobUpd_id]

/-- A rewrite chain keeps everything but description and notes. -/
theorem applyUpdates_core (rs : List (WorkRecord × Nat)) :
    ∀ j : Job, jobCore (applyUpdates j rs) = jobCore j := by
  induction rs with
  | nil => exact fun j => rfl
  | cons a rs ih =>
      intro j
      rw [applyUpdates_cons, ih, jobUpd_core]

/-- Two jobs equal up to notes, with equal descriptions, get equal rewrites
when the rewrite fires. -/
theorem jobUpd_congr_of_core {s t : Job} (r : WorkRecord)
    (hc : jobCore s = jobCore t) (hd : s.description = t.description)
    (hne : s.description ≠ r.description) : jobUpd r s = jobUpd r t := by
  have hne' : t.description ≠ r.description := by rw [← hd]; exact hne
  unfold jobUpd
  rw [if_pos hne, if_pos hne']
  rcases s with ⟨ids, eqs, ds, des, bs, nsd, nsda, ns⟩
  rcases t with ⟨idt, eqt, dt, det, bt, ntd, ntda, nt⟩
  simp only [jobCore, Job.mk.injEq] at hc ⊢
  tauto

/-- Folding the same rewrites over two states that agree on everything but
notes, and on description, either yields equal results or moves neither. -/
theorem applyUpdates_desc_congr (rs : List (WorkRecord × Nat)) :
    ∀ s t : Job, jobCore s = jobCore t → s.description = t.description →
      applyUpdates s rs = applyUpdates t rs ∨
      (applyUpdates s rs = s ∧ applyUpdates t rs = t) := by
  induction rs with
  | nil => exact fun s t _ _ => Or.inr ⟨rfl, rfl⟩
  | cons a rs ih =>
      intro s t hc hd
      by_cases h : s.description = a.1.description
      · have hs : jobUpd a.1 s = s := jobUpd_of_desc_eq h
        have ht : jobUpd a.1 t = t := jobUpd_of_desc_eq (by rw [← hd]; exact h)
        rw [applyUpdates_cons, applyUpdates_cons, hs, ht]
        exact ih s t hc hd
      · have : jobUpd a.1 s = jobUpd a.1 t := jobUpd_congr_of_core a.1 hc hd h
        rw [applyUpdates_cons, applyUpdates_cons, this]
        exact Or.inl rfl

/-- Replay: folding the same rewrites a second time over a fold result
changes nothing. -/
theorem applyUpdates_replay (rs : List (WorkRecord × Nat)) :
    ∀ x : Job, applyUpdates (applyUpdates x rs) rs = applyUpdates x rs := by
  induction rs with
  | nil => exact fun x => rfl
  | cons a rs ih =>
      intro x
      rw [applyUpdates_cons x, applyUpdates_cons]
      by_cases hdt : (applyUpdates (jobUpd a.1 x) rs).description = a.1.description
      · rw [jobUpd_of_desc_eq hdt]
        exact ih (jobUpd a.1 x)
      · have hw_core :
            jobCore (jobUpd a.1 (applyUpdates (jobUpd a.1 x) rs)) =
              jobCore (jobUpd a.1 x) := by
          rw [jobUpd_core, applyUpdates_core]
        have hw_desc :
            (jobUpd a.1 (applyUpdates (jobUpd a.1 x) rs)).description =
              (jobUpd a.1 x).description := by
          rw [jobUpd_desc, jobUpd_desc]
        rcases applyUpdates_desc_congr rs _ _ hw_core hw_desc with heq | ⟨_, h2⟩
        · rw [heq]
        · exact absurd (by rw [h2, jobUpd_desc]) hdt

/-- Replay including the creation record at the head: if the state already
carries the head record's description, a full second pass is the identity. -/
theorem applyUpdates_replay_head (a : WorkRecord × Nat)
    (rs : List (WorkRecord × Nat)) (x : Job) (h : jobUpd a.1 x = x) :
    applyUpdates (applyUpdates x rs) (a :: rs) = applyUpdates x rs := by
  rw [show applyUpdates x rs = applyUpdates x (a :: rs) from by
    rw [applyUpdates_cons, h]]
  exact applyUpdates_replay (a :: rs) x

/-- `find?` commutes with a map whose function does not change the
predicate's verdict. -/
theorem find?_map_pred {α : Type} (g : α → α) (p : α → Bool)
    (hg : ∀ x, p (g x) = p x) :
    ∀ l : List α, (l.map g).find? p = (l.find? p).map g := by
  intro l
  induction l with
  | nil => rfl
  | cons x xs ih =>
      by_cases hx : p x = true
      · simp [List.find?, hg, hx]
      · simp only [Bool.not_eq_true] at hx
        simp [List.find?, hg, hx, ih]

/-- The job-lookup predicate holds exactly on jobs with the given key. -/
theorem jobPred_iff (eid : Nat) (d : Date) (j : Job) :
    (decide (j.equipment = eid ∧ j.date_done = d) = true) ↔
      keyOfJob j = (eid, d) := by
  simp [keyOfJob, Prod.ext_iff]

/-- A failed key lookup means the key is absent. -/
theorem find?_key_none {jobs : List Job} {eid : Nat} {d : Date}
    (h : jobs.find? (fun j2 => decide (j2.equipment = eid ∧ j2.date_done = d)) = none) :
    (eid, d) ∉ jobs.map keyOfJob := by
  intro hmem
  rcases List.mem_map.mp hmem with ⟨j, hj, hkey⟩
  exact (List.find?_eq_none.mp h j hj) ((jobPred_iff eid d j).mpr hkey)

/-- A successful key lookup returns a member carrying the key. -/
theorem find?_key_some {jobs : List Job} {eid : Nat} {d : Date} {j : Job}
    (h : jobs.find? (fun j2 => decide (j2.equipment = eid ∧ j2.date_done = d)) = some j) :
    j ∈ jobs ∧ keyOfJob j = (eid, d) := by
  have h1 := List.mem_of_find?_eq_some h
  have h2 := List.find?_some h
  exact ⟨h1, (jobPred_iff eid d j).mp h2⟩

/-- Two members of an id-distinct list with the same id coincide. -/
theorem mem_id_unique {jobs : List Job} (h : IdDistinct jobs) {x y : Job}
    (hx : x ∈ jobs) (hy : y ∈ jobs) (he : x.id = y.id) : x = y := by
  by_contra hne
  exact (h.forall (fun a b hab => (Ne.symm hab)) hx hy hne) he

/-- Two members of a key-distinct list with the same key coincide. -/
theorem mem_key_unique {jobs : List Job} (h : KeyDistinct jobs) {x y : Job}
    (hx : x ∈ jobs) (hy : y ∈ jobs) (he : keyOfJob x = keyOfJob y) : x = y := by
  by_contra hne
  exact (h.forall (fun a b hab => (Ne.symm hab)) hx hy hne) he

/-- A by-id conditional rewrite keeps the key list. -/
theorem map_key_update (jobs : List Job) (jid : Nat) (r : WorkRecord) :
    (jobs.map (fun j2 => if j2.id = jid then jobUpd r j2 else j2)).map keyOfJob =
      jobs.map keyOfJob := by
  rw [List.map_map]
  exact List.map_congr_left (fun j2 _ => by
    by_cases h : j2.id = jid <;> simp [h, jobUpd_key, Function.comp])

/-- A by-id conditional rewrite keeps the id list. -/
theorem map_id_update (jobs : List Job) (jid : Nat) (r : WorkRecord) :
    (jobs.map (fun j2 => if j2.id = jid then jobUpd r j2 else j2)).map Job.id =
      jobs.map Job.id := by
  rw [List.map_map]
  exact List.map_congr_left (fun j2 _ => by
    by_cases h : j2.id = jid <;> simp [h, jobUpd_id, Function.comp])

/-- A record addressed to the job's own key prepends to its rewrite filter. -/
theorem overlay_cons_of_key {a : WorkRecord × Nat} {j : Job}
    (anns : List (WorkRecord × Nat)) (h : akey a = keyOfJob j) :
    overlay (a :: anns) j = overlay anns (jobUpd a.1 j) := by
  unfold overlay
  rw [jobUpd_key, List.filter_cons, if_pos (by simpa using h), applyUpdates_cons]

/-- A record addressed to another key leaves the rewrite filter alone. -/
theorem overlay_cons_of_ne {a : WorkRecord × Nat} {j : Job}
    (anns : List (WorkRecord × Nat)) (h : akey a ≠ keyOfJob j) :
    overlay (a :: anns) j = overlay anns j := by
  unfold overlay
  rw [List.filter_cons, if_neg (by simpa using h)]

/-- A by-id unconditional description/notes write keeps the key list. -/
theorem map_key_write (jobs : List Job) (jid : Nat) (desc nts : String) :
    (jobs.map (fun j2 => if j2.id = jid then
        { j2 with description := desc, notes := nts } else j2)).map keyOfJob =
      jobs.map keyOfJob := by
  rw [List.map_map]
  exact List.map_congr_left (fun j2 _ => by
    by_cases h : j2.id = jid <;> simp [h, keyOfJob, Function.comp])

/-- Under distinct ids, the materializer's unconditional write to the matched
row agrees with the conditional rewrite `jobUpd`. -/
theorem map_write_eq_map_jobUpd {jobs : List Job} (hi : IdDistinct jobs)
    {j0 : Job} (hj0 : j0 ∈ jobs) (r : WorkRecord)
    (hd : j0.description ≠ r.description) :
    jobs.map (fun j2 => if j2.id = j0.id then
        { j2 with description := r.description
                  notes := "Actualizado desde Excel - Cliente: " ++ r.client }
      else j2) =
      jobs.map (fun j2 => if j2.id = j0.id then jobUpd r j2 else j2) := by
  refine List.map_congr_left (fun j2 hj2 => ?_)
  by_cases h : j2.id = j0.id
  · rw [if_pos h, if_pos h]
    have hj2j0 : j2 = j0 := mem_id_unique hi hj2 hj0 h
    subst hj2j0
    unfold jobUpd
    rw [if_pos hd]
  · rw [if_neg h, if_neg h]

/-- One job-phase step never loses a key. -/
theorem jobStep_keys_mono (t : List Job × Nat × Nat) (a : WorkRecord × Nat)
    (κ : Nat × Date) (h : κ ∈ t.1.map keyOfJob) :
    κ ∈ (jobStep t a).1.map keyOfJob := by
  unfold jobStep
  cases hf : t.1.find? (fun j2 => decide (j2.equipment = a.2 ∧ j2.date_done = a.1.date)) with
  | none =>
      simp only []
      rw [List.map_append]
      exact List.mem_append_left _ h
  | some j =>
      simp only []
      by_cases hd : j.description ≠ a.1.description
      · rw [if_pos hd]
        show κ ∈ (List.map (fun j2 => if j2.id = j.id then
          { j2 with description := a.1.description
                    notes := "Actualizado desde Excel - Cliente: " ++ a.1.client }
          else j2) t.1).map keyOfJob
        rw [map_key_write]
        exact h
      · rw [if_neg hd]
        exact h

/-- The job-phase fold never loses a key. -/
theorem jobsFold_keys_mono (anns : List (WorkRecord × Nat)) :
    ∀ (t : List Job × Nat × Nat) (κ : Nat × Date),
      κ ∈ t.1.map keyOfJob → κ ∈ (jobsFold t anns).1.map keyOfJob := by
  induction anns with
  | nil => exact fun t κ h => h
  | cons a anns ih =>
      intro t κ h
      exact ih (jobStep t a) κ (jobStep_keys_mono t a κ h)

/-- A key-addressed record passes the rewrite filter. -/
theorem filter_key_cons_pos {a : WorkRecord × Nat} {κ : Nat × Date}
    (anns : List (WorkRecord × Nat)) (h : akey a = κ) :
    (a :: anns).filter (fun a2 => decide (akey a2 = κ)) =
      a :: anns.filter (fun a2 => decide (akey a2 = κ)) := by
  simp [List.filter_cons, h]

/-- A record addressed elsewhere is dropped by the rewrite filter. -/
theorem filter_key_cons_neg {a : WorkRecord × Nat} {κ : Nat × Date}
    (anns : List (WorkRecord × Nat)) (h : akey a ≠ κ) :
    (a :: anns).filter (fun a2 => decide (akey a2 = κ)) =
      anns.filter (fun a2 => decide (akey a2 = κ)) := by
  simp [List.filter_cons, h]

/-- Job-phase step, update case. -/
theorem jobStep_update {jobs : List Job} {a : WorkRecord × Nat} {j0 : Job}
    (n c : Nat)
    (hf : jobs.find? (fun j2 => decide (j2.equipment = a.2 ∧ j2.date_done = a.1.date))
      = some j0)
    (hd : j0.description ≠ a.1.description) (hi : IdDistinct jobs) :
    jobStep (jobs, n, c) a =
      (jobs.map (fun j2 => if j2.id = j0.id then jobUpd a.1 j2 else j2), n, c) := by
  unfold jobStep
  simp only []
  rw [hf]
  simp only []
  rw [if_pos hd,
    map_write_eq_map_jobUpd hi (List.mem_of_find?_eq_some hf) a.1 hd]

/-- Job-phase step, no-op case (description already equal). -/
theorem jobStep_noop {jobs : List Job} {a : WorkRecord × Nat} {j0 : Job}
    (n c : Nat)
    (hf : jobs.find? (fun j2 => decide (j2.equipment = a.2 ∧ j2.date_done = a.1.date))
      = some j0)
    (hd : ¬ j0.description ≠ a.1.description) :
    jobStep (jobs, n, c) a = (jobs, n, c) := by
  unfold jobStep
  simp only []
  rw [hf]
  simp only []
  rw [if_neg hd]

/-- Job-phase step, creation case. -/
theorem jobStep_create {jobs : List Job} {a : WorkRecord × Nat} (n c : Nat)
    (hf : jobs.find? (fun j2 => decide (j2.equipment = a.2 ∧ j2.date_done = a.1.date))
      = none) :
    jobStep (jobs, n, c) a = (jobs ++ [newJobOf n a.2 a.1], n + 1, c + 1) := by
  unfold jobStep
  simp only []
  rw [hf]

/-- The inserted job row carries the record's key and the fresh id. -/
theorem newJobOf_key (n eid : Nat) (r : WorkRecord) :
    keyOfJob (newJobOf n eid r) = (eid, r.date) := rfl

/-- Fold-closure transfers through an update step. -/
theorem closedAt_lift_update {jobs : List Job} {anns : List (WorkRecord × Nat)}
    {a : WorkRecord × Nat} {j0 j : Job}
    (hk : KeyDistinct jobs) (hi : IdDistinct jobs)
    (hj0 : j0 ∈ jobs) (hkey : keyOfJob j0 = akey a)
    (hcl : ClosedAt (jobs.map (fun j2 => if j2.id = j0.id then jobUpd a.1 j2 else j2))
      anns j) :
    ClosedAt jobs (a :: anns) j := by
  rcases hcl with ⟨x, hx, hxkey, hxj⟩ | ⟨hnot, a₀, rs', m, hfil, hj⟩
  · rcases List.mem_map.mp hx with ⟨x0, hx0, hux⟩
    by_cases hid : x0.id = j0.id
    · have hx0j0 : x0 = j0 := mem_id_unique hi hx0 hj0 hid
      subst hx0j0
      rw [if_pos rfl] at hux
      have hκ : akey a = keyOfJob j := by
        rw [← hxkey, ← hux, jobUpd_key, hkey]
      refine Or.inl ⟨x0, hx0, by rw [← hxkey, ← hux, jobUpd_key], ?_⟩
      rw [filter_key_cons_pos anns hκ, applyUpdates_cons, hux]
      exact hxj
    · rw [if_neg hid] at hux
      subst hux
      have hκ : akey a ≠ keyOfJob j := by
        rw [← hxkey]
        intro hcontra
        exact hid (congrArg Job.id (mem_key_unique hk hx0 hj0 (by rw [hkey, hcontra])))
      refine Or.inl ⟨x0, hx0, hxkey, ?_⟩
      rw [filter_key_cons_neg anns hκ]
      exact hxj
  · rw [map_key_update] at hnot
    have hκ : akey a ≠ keyOfJob j := by
      intro hcontra
      exact hnot (hcontra ▸ hkey ▸ List.mem_map.mpr ⟨j0, hj0, rfl⟩)
    refine Or.inr ⟨hnot, a₀, rs', m, ?_, hj⟩
    rw [filter_key_cons_neg anns hκ, hfil]

/-- Fold-closure transfers through a no-op step. -/
theorem closedAt_lift_noop {jobs : List Job} {anns : List (WorkRecord × Nat)}
    {a : WorkRecord × Nat} {j0 j : Job}
    (hk : KeyDistinct jobs)
    (hj0 : j0 ∈ jobs) (hkey : keyOfJob j0 = akey a)
    (hd : j0.description = a.1.description)
    (hcl : ClosedAt jobs anns j) :
    ClosedAt jobs (a :: anns) j := by
  rcases hcl with ⟨x, hx, hxkey, hxj⟩ | ⟨hnot, a₀, rs', m, hfil, hj⟩
  · by_cases hκ : akey a = keyOfJob j
    · have hxj0 : x = j0 := mem_key_unique hk hx hj0 (by rw [hxkey, ← hκ, hkey])
      refine Or.inl ⟨x, hx, hxkey, ?_⟩
      rw [filter_key_cons_pos anns hκ, applyUpdates_cons, hxj0,
        jobUpd_of_desc_eq hd, ← hxj0]
      exact hxj
    · refine Or.inl ⟨x, hx, hxkey, ?_⟩
      rw [filter_key_cons_neg anns hκ]
      exact hxj
  · have hκ : akey a ≠ keyOfJob j := by
      intro hcontra
      exact hnot (hcontra ▸ hkey ▸ List.mem_map.mpr ⟨j0, hj0, rfl⟩)
    refine Or.inr ⟨hnot, a₀, rs', m, ?_, hj⟩
    rw [filter_key_cons_neg anns hκ, hfil]

/-- Fold-closure transfers through a creation step. -/
theorem closedAt_lift_create {jobs : List Job} {anns : List (WorkRecord × Nat)}
    {a : WorkRecord × Nat} {n : Nat} {j : Job}
    (hnotin : akey a ∉ jobs.map keyOfJob)
    (hcl : ClosedAt (jobs ++ [newJobOf n a.2 a.1]) anns j) :
    ClosedAt jobs (a :: anns) j := by
  rcases hcl with ⟨x, hx, hxkey, hxj⟩ | ⟨hnot, a₀, rs', m, hfil, hj⟩
  · rcases List.mem_append.mp hx with hx | hx
    · have hκ : akey a ≠ keyOfJob j := by
        intro hcontra
        exact hnotin (hcontra ▸ hxkey ▸ List.mem_map.mpr ⟨x, hx, rfl⟩)
      refine Or.inl ⟨x, hx, hxkey, ?_⟩
      rw [filter_key_cons_neg anns hκ]
      exact hxj
    · have hxnew : x = newJobOf n a.2 a.1 := by simpa using hx
      have hκ : akey a = keyOfJob j := by
        rw [← hxkey, hxnew, newJobOf_key]
        rfl
      refine Or.inr ⟨by rw [← hκ]; exact hnotin, a, _, n, filter_key_cons_pos anns hκ, ?_⟩
      rw [← hxnew]
      exact hxj
  · have hκ : akey a ≠ keyOfJob j := by
      intro hcontra
      refine hnot ?_
      rw [List.map_append]
      have hkj : keyOfJob j = (a.2, a.1.date) := by rw [← hcontra]; rfl
      exact List.mem_append_right _ (by simp [newJobOf_key, hkj])
    have hnot' : keyOfJob j ∉ jobs.map keyOfJob := by
      intro hcontra
      refine hnot ?_
      rw [List.map_append]
      exact List.mem_append_left _ hcontra
    refine Or.inr ⟨hnot', a₀, rs', m, ?_, hj⟩
    rw [filter_key_cons_neg anns hκ, hfil]

/-- Run-1 job-phase fold: key- and id-distinctness and id-freshness are
preserved, every processed key is present afterwards, and every resulting job
is fold-closed for the batch relative to the initial table. -/
theorem jobsFold_run1 (anns : List (WorkRecord × Nat)) :
    ∀ (jobs : List Job) (n c : Nat),
    KeyDistinct jobs → IdDistinct jobs → IdsBelow jobs n →
    KeyDistinct (jobsFold (jobs, n, c) anns).1 ∧
    IdDistinct (jobsFold (jobs, n, c) anns).1 ∧
    IdsBelow (jobsFold (jobs, n, c) anns).1 (jobsFold (jobs, n, c) anns).2.1 ∧
    (∀ a ∈ anns, akey a ∈ (jobsFold (jobs, n, c) anns).1.map keyOfJob) ∧
    (∀ j ∈ (jobsFold (jobs, n, c) anns).1, ClosedAt jobs anns j) := by
  induction anns with
  | nil =>
      intro jobs n c h1 h2 h3
      refine ⟨h1, h2, h3, by simp, ?_⟩
      intro j hj
      exact Or.inl ⟨j, hj, rfl, by simp [applyUpdates_nil]⟩
  | cons a anns ih =>
      intro jobs n c h1 h2 h3
      rw [show jobsFold (jobs, n, c) (a :: anns) =
        jobsFold (jobStep (jobs, n, c) a) anns from rfl]
      cases hf : jobs.find?
          (fun j2 => decide (j2.equipment = a.2 ∧ j2.date_done = a.1.date)) with
      | some j0 =>
          obtain ⟨hj0mem, hj0key0⟩ := find?_key_some hf
          have hj0key : keyOfJob j0 = akey a := hj0key0
          by_cases hd : j0.description ≠ a.1.description
          · rw [jobStep_update n c hf hd h2]
            have hptw : ∀ z : Job,
                keyOfJob (if z.id = j0.id then jobUpd a.1 z else z) = keyOfJob z :=
              fun z => by by_cases h : z.id = j0.id <;> simp [h, jobUpd_key]
            have hptw2 : ∀ z : Job,
                (if z.id = j0.id then jobUpd a.1 z else z).id = z.id :=
              fun z => by by_cases h : z.id = j0.id <;> simp [h, jobUpd_id]
            have h1' : KeyDistinct
                (jobs.map (fun j2 => if j2.id = j0.id then jobUpd a.1 j2 else j2)) := by
              refine List.Pairwise.map _ (fun x y hxy => ?_) h1
              rw [hptw, hptw]
              exact hxy
            have h2' : IdDistinct
                (jobs.map (fun j2 => if j2.id = j0.id then jobUpd a.1 j2 else j2)) := by
              refine List.Pairwise.map _ (fun x y hxy => ?_) h2
              rw [hptw2, hptw2]
              exact hxy
            have h3' : IdsBelow
                (jobs.map (fun j2 => if j2.id = j0.id then jobUpd a.1 j2 else j2)) n := by
              intro x hx
              rcases List.mem_map.mp hx with ⟨x0, hx0, rfl⟩
              rw [hptw2]
              exact h3 x0 hx0
            obtain ⟨g1, g2, g3, g4, g5⟩ := ih _ n c h1' h2' h3'
            refine ⟨g1, g2, g3, ?_, ?_⟩
            · intro a' ha'
              rcases List.mem_cons.mp ha' with rfl | ha'
              · refine jobsFold_keys_mono anns _ _ ?_
                show akey a' ∈ (jobs.map
                  (fun j2 => if j2.id = j0.id then jobUpd a'.1 j2 else j2)).map keyOfJob
                rw [map_key_update]
                exact hj0key ▸ List.mem_map.mpr ⟨j0, hj0mem, rfl⟩
              · exact g4 a' ha'
            · intro j hj
              exact closedAt_lift_update h1 h2 hj0mem hj0key (g5 j hj)
          · rw [jobStep_noop n c hf hd]
            obtain ⟨g1, g2, g3, g4, g5⟩ := ih jobs n c h1 h2 h3
            refine ⟨g1, g2, g3, ?_, ?_⟩
            · intro a' ha'
              rcases List.mem_cons.mp ha' with rfl | ha'
              · exact jobsFold_keys_mono anns _ _
                  (hj0key ▸ List.mem_map.mpr ⟨j0, hj0mem, rfl⟩)
              · exact g4 a' ha'
            · intro j hj
              exact closedAt_lift_noop h1 hj0mem hj0key (not_not.mp hd) (g5 j hj)
      | none =>
          rw [jobStep_create n c hf]
          have hnotin : akey a ∉ jobs.map keyOfJob := find?_key_none hf
          have hnew_key : keyOfJob (newJobOf n a.2 a.1) = akey a := rfl
          have h1' : KeyDistinct (jobs ++ [newJobOf n a.2 a.1]) := by
            unfold KeyDistinct
            rw [List.pairwise_append]
            refine ⟨h1, by simp, ?_⟩
            intro x hx y hy
            have hy' : y = newJobOf n a.2 a.1 := by simpa using hy
            rw [hy', hnew_key]
            intro hcontra
            exact hnotin (hcontra ▸ List.mem_map.mpr ⟨x, hx, rfl⟩)
          have h2' : IdDistinct (jobs ++ [newJobOf n a.2 a.1]) := by
            unfold IdDistinct
            rw [List.pairwise_append]
            refine ⟨h2, by simp, ?_⟩
            intro x hx y hy
            have hy' : y = newJobOf n a.2 a.1 := by simpa using hy
            rw [hy']
            exact Nat.ne_of_lt (h3 x hx)
          have h3' : IdsBelow (jobs ++ [newJobOf n a.2 a.1]) (n + 1) := by
            intro x hx
            rcases List.mem_append.mp hx with hx | hx
            · exact Nat.lt_succ_of_lt (h3 x hx)
            · have hx' : x = newJobOf n a.2 a.1 := by simpa using hx
              rw [hx']
              exact Nat.lt_succ_self n
          obtain ⟨g1, g2, g3, g4, g5⟩ := ih _ (n + 1) (c + 1) h1' h2' h3'
          refine ⟨g1, g2, g3, ?_, ?_⟩
          · intro a' ha'
            rcases List.mem_cons.mp ha' with rfl | ha'
            · refine jobsFold_keys_mono anns _ _ ?_
              show akey a' ∈ (jobs ++ [newJobOf n a'.2 a'.1]).map keyOfJob
              rw [List.map_append]
              exact List.mem_append_right _ (by simp [hnew_key])
            · exact g4 a' ha'
          · intro j hj
            exact closedAt_lift_create hnotin (g5 j hj)

/-- Run-2 job-phase fold: when every record's key is already present in a
key- and id-distinct table, the fold creates nothing — the counter and the
`jobs_created` tally are untouched and each job just absorbs the rewrites
addressed to its key. -/
theorem jobsFold_run2 (anns : List (WorkRecord × Nat)) :
    ∀ (jobs : List Job) (n c : Nat),
    KeyDistinct jobs → IdDistinct jobs →
    (∀ a ∈ anns, akey a ∈ jobs.map keyOfJob) →
    jobsFold (jobs, n, c) anns = (jobs.map (fun j => overlay anns j), n, c) := by
  induction anns with
  | nil =>
      intro jobs n c _ _ _
      rw [show jobsFold (jobs, n, c) [] = (jobs, n, c) from rfl]
      rw [show jobs.map (fun j => overlay [] j) = jobs.map id from
        List.map_congr_left (fun j _ => rfl), List.map_id]
  | cons a anns ih =>
      intro jobs n c hk hi hmem
      have hka : akey a ∈ jobs.map keyOfJob := hmem a (by simp)
      rw [show jobsFold (jobs, n, c) (a :: anns) =
        jobsFold (jobStep (jobs, n, c) a) anns from rfl]
      cases hf : jobs.find?
          (fun j2 => decide (j2.equipment = a.2 ∧ j2.date_done = a.1.date)) with
      | none =>
          exact absurd hka (find?_key_none hf)
      | some j0 =>
          obtain ⟨hj0mem, hj0key0⟩ := find?_key_some hf
          have hj0key : keyOfJob j0 = akey a := hj0key0
          by_cases hd : j0.description ≠ a.1.description
          · rw [jobStep_update n c hf hd hi]
            have hptw : ∀ z : Job,
                keyOfJob (if z.id = j0.id then jobUpd a.1 z else z) = keyOfJob z :=
              fun z => by by_cases h : z.id = j0.id <;> simp [h, jobUpd_key]
            have hptw2 : ∀ z : Job,
                (if z.id = j0.id then jobUpd a.1 z else z).id = z.id :=
              fun z => by by_cases h : z.id = j0.id <;> simp [h, jobUpd_id]
            have h1' : KeyDistinct
                (jobs.map (fun j2 => if j2.id = j0.id then jobUpd a.1 j2 else j2)) := by
              refine List.Pairwise.map _ (fun x y hxy => ?_) hk
              rw [hptw, hptw]
              exact hxy
            have h2' : IdDistinct
                (jobs.map (fun j2 => if j2.id = j0.id then jobUpd a.1 j2 else j2)) := by
              refine List.Pairwise.map _ (fun x y hxy => ?_) hi
              rw [hptw2, hptw2]
              exact hxy
            have hmem' : ∀ a' ∈ anns, akey a' ∈
                (jobs.map (fun j2 => if j2.id = j0.id then jobUpd a.1 j2 else j2)).map
                  keyOfJob := by
              intro a' ha'
              rw [map_key_update]
              exact hmem a' (by simp [ha'])
            rw [ih _ n c h1' h2' hmem']
            refine congrArg (fun l => (l, n, c)) ?_
            rw [List.map_map]
            refine List.map_congr_left (fun j hj => ?_)
            show overlay anns (if j.id = j0.id then jobUpd a.1 j else j) =
              overlay (a :: anns) j
            by_cases hid : j.id = j0.id
            · have hjj0 : j = j0 := mem_id_unique hi hj hj0mem hid
              rw [if_pos hid, overlay_cons_of_key anns
                (by rw [← hjj0] at hj0key; exact hj0key.symm)]
            · rw [if_neg hid]
              have hκ : akey a ≠ keyOfJob j := by
                intro hcontra
                exact hid (congrArg Job.id
                  (mem_key_unique hk hj hj0mem (by rw [hj0key, hcontra])))
              rw [overlay_cons_of_ne anns hκ]
          · rw [jobStep_noop n c hf hd]
            rw [ih jobs n c hk hi (fun a' ha' => hmem a' (by simp [ha']))]
            refine congrArg (fun l => (l, n, c)) ?_
            refine List.map_congr_left (fun j hj => ?_)
            by_cases hκ : akey a = keyOfJob j
            · have hjj0 : j = j0 :=
                mem_key_unique hk hj hj0mem (hκ.symm.trans hj0key.symm)
              rw [overlay_cons_of_key anns hκ, hjj0,
                jobUpd_of_desc_eq (not_not.mp hd)]
            · rw [overlay_cons_of_ne anns hκ]

/-- A fold-closed job absorbs a full second pass unchanged. -/
theorem overlay_of_closedAt {jobs : List Job} {anns : List (WorkRecord × Nat)}
    {j : Job} (h : ClosedAt jobs anns j) : overlay anns j = j := by
  rcases h with ⟨x, _, _, hxj⟩ | ⟨_, a₀, rs', m, hfil, hj⟩
  · unfold overlay
    set κ := keyOfJob j with hκ
    set F := anns.filter (fun a => decide (akey a = κ)) with hF
    rw [hxj]
    exact applyUpdates_replay F x
  · unfold overlay
    set κ := keyOfJob j with hκ
    rw [hfil, hj]
    exact applyUpdates_replay_head a₀ rs' _ (jobUpd_of_desc_eq rfl)

/-- Unfolding of the resolution pass on a cons. -/
theorem resolveRecords_cons (year : Nat) (db : DB) (s : ImportSummary)
    (r : WorkRecord) (rs : List WorkRecord) :
    resolveRecords year db s (r :: rs) =
      match create_or_update_equipment year db s r with
      | (some eid, db1, s1) =>
          ((r, eid) :: (resolveRecords year db1 s1 rs).1,
            (resolveRecords year db1 s1 rs).2.1, (resolveRecords year db1 s1 rs).2.2)
      | (none, db1, s1) => resolveRecords year db1 s1 rs := by
  rcases hcue : create_or_update_equipment year db s r with ⟨eo, db1, s1⟩
  cases eo with
  | none =>
      conv_lhs => rw [resolveRecords, hcue]
  | some eid =>
      conv_lhs => rw [resolveRecords, hcue]

/-- The client back-fill rewrite changes neither ids nor serials, so serial
lookup by id is unchanged. -/
theorem find?_serial_map (equips : List Equipment) (serial : String)
    (eid : Nat) (cid : Option Nat) (pname : Option String) :
    ((equips.map (fun e2 => if e2.id = eid then
        { e2 with client := cid, propietario := pname } else e2)).find?
        (fun e2 => decide (e2.n_serie = serial))).map (fun e => e.id) =
      (equips.find? (fun e2 => decide (e2.n_serie = serial))).map (fun e => e.id) := by
  rw [find?_map_pred _ _ (fun x => by by_cases h : x.id = eid <;> simp [h])]
  cases hfo : equips.find? (fun e2 => decide (e2.n_serie = serial)) with
  | none => rfl
  | some e => by_cases h : e.id = eid <;> simp [h]

/-- Resolving a record whose serial is already present returns that
equipment's id and leaves every serial's resolution unchanged. -/
theorem cue_of_idOf_some (year : Nat) (db : DB) (s : ImportSummary)
    (r : WorkRecord) {i : Nat} (h : idOf db r.equipment = some i) :
    (create_or_update_equipment year db s r).1 = some i ∧
    (∀ serial : String,
      idOf (create_or_update_equipment year db s r).2.1 serial = idOf db serial) := by
  obtain ⟨h1, _, _, _, _, _, _, _⟩ := cgc_frame db s r.client
  unfold create_or_update_equipment
  simp only []
  rcases hc : create_or_get_client db s r.client with ⟨cid, db1, s1⟩
  rw [hc] at h1
  simp only [] at h1 ⊢
  rw [h1]
  cases hfo : db.equipments.find? (fun e => decide (e.n_serie = r.equipment)) with
  | none =>
      unfold idOf at h
      rw [hfo] at h
      simp at h
  | some e =>
      have hei : e.id = i := by
        unfold idOf at h
        rw [hfo] at h
        simpa using h
      simp only []
      refine ⟨by rw [hei], ?_⟩
      intro serial
      split
      · unfold idOf
        simp only []
        exact find?_serial_map db.equipments serial e.id cid (some r.client)
      · unfold idOf
        rw [h1]

/-- Resolving a record whose serial is absent creates the equipment under the
fresh id, leaving previously resolvable serials unchanged. -/
theorem cue_of_idOf_none (year : Nat) (db : DB) (s : ImportSummary)
    (r : WorkRecord) (h : idOf db r.equipment = none) :
    (create_or_update_equipment year db s r).1 = some db.nextEquipmentId ∧
    idOf (create_or_update_equipment year db s r).2.1 r.equipment =
      some db.nextEquipmentId ∧
    (∀ serial i, idOf db serial = some i →
      idOf (create_or_update_equipment year db s r).2.1 serial = some i) := by
  obtain ⟨h1, _, h3, _, _, _, _, _⟩ := cgc_frame db s r.client
  unfold create_or_update_equipment
  simp only []
  rcases hc : create_or_get_client db s r.client with ⟨cid, db1, s1⟩
  rw [hc] at h1 h3
  simp only [] at h1 h3 ⊢
  rw [h1]
  cases hfo : db.equipments.find? (fun e => decide (e.n_serie = r.equipment)) with
  | some e =>
      unfold idOf at h
      rw [hfo] at h
      simp at h
  | none =>
      simp only []
      refine ⟨by rw [h3], ?_, ?_⟩
      · unfold idOf
        simp only []
        rw [List.find?_append, hfo]
        simp [h3]
      · intro serial i hsi
        unfold idOf at hsi ⊢
        simp only []
        rw [List.find?_append]
        cases hfs : db.equipments.find? (fun e2 => decide (e2.n_serie = serial)) with
        | none => rw [hfs] at hsi; simp at hsi
        | some e2 =>
            rw [hfs] at hsi
            simpa using hsi

/-- The resolution pass annotates every record, each annotation resolves to
its id in the final equipment table, and resolvable serials stay resolvable
with the same id. -/
theorem rr_anns (year : Nat) (records : List WorkRecord) :
    ∀ (db : DB) (s : ImportSummary),
    ((resolveRecords year db s records).1.map Prod.fst = records) ∧
    (∀ a ∈ (resolveRecords year db s records).1,
        idOf (resolveRecords year db s records).2.1 a.1.equipment = some a.2) ∧
    (∀ serial i, idOf db serial = some i →
        idOf (resolveRecords year db s records).2.1 serial = some i) := by
  induction records with
  | nil =>
      intro db s
      exact ⟨rfl, fun a ha => absurd ha (List.not_mem_nil a), fun serial i h => h⟩
  | cons r rs ih =>
      intro db s
      rcases hres : create_or_update_equipment year db s r with ⟨eo, db1, s1⟩
      cases hio : idOf db r.equipment with
      | some i =>
          obtain ⟨he1, he2⟩ := cue_of_idOf_some year db s r hio
          rw [hres] at he1 he2
          simp only [] at he1 he2
          subst he1
          rw [resolveRecords_cons year db s r rs, hres]
          simp only []
          obtain ⟨g1, g2, g3⟩ := ih db1 s1
          refine ⟨by rw [List.map_cons, g1], ?_, ?_⟩
          · intro a ha
            rcases List.mem_cons.mp ha with rfl | ha
            · exact g3 r.equipment i (by rw [he2]; exact hio)
            · exact g2 a ha
          · intro serial i2 hsi
            exact g3 serial i2 (by rw [he2]; exact hsi)
      | none =>
          obtain ⟨he1, he2, he3⟩ := cue_of_idOf_none year db s r hio
          rw [hres] at he1 he2 he3
          simp only [] at he1 he2 he3
          subst he1
          rw [resolveRecords_cons year db s r rs, hres]
          simp only []
          obtain ⟨g1, g2, g3⟩ := ih db1 s1
          refine ⟨by rw [List.map_cons, g1], ?_, ?_⟩
          · intro a ha
            rcases List.mem_cons.mp ha with rfl | ha
            · exact g3 r.equipment db.nextEquipmentId he2
            · exact g2 a ha
          · intro serial i2 hsi
            exact g3 serial i2 (he3 serial i2 hsi)

/-- When every record's serial already resolves, the resolution pass
annotates each record with its current resolution and changes no
resolution. -/
theorem rr_of_all_resolved (year : Nat) (records : List WorkRecord) :
    ∀ (db : DB) (s : ImportSummary),
    (∀ r ∈ records, (idOf db r.equipment).isSome) →
    (resolveRecords year db s records).1 =
      records.map (fun r => (r, (idOf db r.equipment).getD 0)) := by
  induction records with
  | nil => intro db s _; rfl
  | cons r rs ih =>
      intro db s hall
      obtain ⟨i, hi⟩ := Option.isSome_iff_exists.mp (hall r (by simp))
      obtain ⟨he1, he2⟩ := cue_of_idOf_some year db s r hi
      rcases hres : create_or_update_equipment year db s r with ⟨eo, db1, s1⟩
      rw [hres] at he1 he2
      simp only [] at he1 he2
      subst he1
      rw [resolveRecords_cons year db s r rs, hres]
      simp only []
      rw [ih db1 s1 (fun r' hr' => by rw [he2]; exact hall r' (by simp [hr']))]
      rw [List.map_cons]
      congr 1
      · rw [hi]
        rfl
      · exact List.map_congr_left (fun r' _ => by rw [he2])

/-- A pair list whose left components enumerate `records` and whose right
components are given by a partial function is the canonical map. -/
theorem anns_canonical {anns : List (WorkRecord × Nat)}
    (f : WorkRecord → Option Nat)
    (h2 : ∀ a ∈ anns, f a.1 = some a.2) :
    anns = (anns.map Prod.fst).map (fun r => (r, (f r).getD 0)) := by
  induction anns with
  | nil => rfl
  | cons a anns ih =>
      rw [List.map_cons, List.map_cons]
      congr 1
      · have ha := h2 a (by simp)
        rcases a with ⟨r0, i0⟩
        simp only [] at ha ⊢
        rw [ha]
        rfl
      · exact ih (fun a' ha' => h2 a' (by simp [ha']))

/-- The job materializer is exactly the job-side step `jobStep` applied to
the job-side state, leaving the rest of the store and summary alone. -/
theorem cj_char (db : DB) (s : ImportSummary) (eid : Nat) (r : WorkRecord) :
    create_job db s eid r =
      ({ db with
          jobs := (jobStep (db.jobs, db.nextJobId, s.jobs_created) (r, eid)).1
          nextJobId := (jobStep (db.jobs, db.nextJobId, s.jobs_created) (r, eid)).2.1 },
       { s with
          jobs_created := (jobStep (db.jobs, db.nextJobId, s.jobs_created) (r, eid)).2.2 }) := by
  unfold create_job jobStep
  simp only []
  cases hf : db.jobs.find? (fun j => decide (j.equipment = eid ∧ j.date_done = r.date)) with
  | none => rfl
  | some j =>
      simp only []
      by_cases hd : j.description ≠ r.description
      · simp only [if_pos hd]
      · simp only [if_neg hd]

/-- The client resolver ignores and preserves the job-side state. -/
theorem cgc_jobs_subst (db : DB) (s : ImportSummary) (n : String)
    (jb : List Job) (nj jc : Nat) :
    create_or_get_client { db with jobs := jb, nextJobId := nj }
        { s with jobs_created := jc } n =
      ((create_or_get_client db s n).1,
       { (create_or_get_client db s n).2.1 with jobs := jb, nextJobId := nj },
       { (create_or_get_client db s n).2.2 with jobs_created := jc }) := by
  unfold create_or_get_client
  split
  · rfl
  · simp only []
    cases hf : db.clients.find? (fun c => decide (c.nombre = strTrim n)) <;>
      simp [hf]

/-- The equipment resolver ignores and preserves the job-side state. -/
theorem cue_jobs_subst (year : Nat) (db : DB) (s : ImportSummary)
    (r : WorkRecord) (jb : List Job) (nj jc : Nat) :
    create_or_update_equipment year { db with jobs := jb, nextJobId := nj }
        { s with jobs_created := jc } r =
      ((create_or_update_equipment year db s r).1,
       { (create_or_update_equipment year db s r).2.1 with jobs := jb, nextJobId := nj },
       { (create_or_update_equipment year db s r).2.2 with jobs_created := jc }) := by
  unfold create_or_update_equipment
  simp only []
  rw [cgc_jobs_subst db s r.client jb nj jc]
  rcases hc : create_or_get_client db s r.client with ⟨cid, db1, s1⟩
  simp only []
  cases hf : db1.equipments.find? (fun e => decide (e.n_serie = r.equipment)) with
  | none => rfl
  | some e =>
      simp only []
      by_cases hb : e.client = none ∧ cid.isSome = true
      · simp only [if_pos hb]
      · simp only [if_neg hb]

/-- The whole resolution pass ignores and preserves the job-side state. -/
theorem rr_jobs_subst (year : Nat) (records : List WorkRecord) :
    ∀ (db : DB) (s : ImportSummary) (jb : List Job) (nj jc : Nat),
    resolveRecords year { db with jobs := jb, nextJobId := nj }
        { s with jobs_created := jc } records =
      ((resolveRecords year db s records).1,
       { (resolveRecords year db s records).2.1 with jobs := jb, nextJobId := nj },
       { (resolveRecords year db s records).2.2 with jobs_created := jc }) := by
  induction records with
  | nil => intro db s jb nj jc; rfl
  | cons r rs ih =>
      intro db s jb nj jc
      rw [resolveRecords_cons, resolveRecords_cons, cue_jobs_subst year db s r jb nj jc]
      rcases hres : create_or_update_equipment year db s r with ⟨eo, db1, s1⟩
      simp only []
      cases eo with
      | some eid =>
          simp only []
          rw [ih db1 s1 jb nj jc]
      | none => exact ih db1 s1 jb nj jc

/-- Decomposition of the import loop: the equipment/client side evolves as
the resolution pass alone, and the job side evolves as the job-phase fold
over the resolved batch. -/
theorem main_decomp (year : Nat) (records : List WorkRecord) :
    ∀ (db : DB) (s : ImportSummary),
    records.foldl (importRecord year) (db, s) =
      ({ (resolveRecords year db s records).2.1 with
          jobs := (jobsFold (db.jobs, db.nextJobId, s.jobs_created)
            (resolveRecords year db s records).1).1
          nextJobId := (jobsFold (db.jobs, db.nextJobId, s.jobs_created)
            (resolveRecords year db s records).1).2.1 },
       { (resolveRecords year db s records).2.2 with
          jobs_created := (jobsFold (db.jobs, db.nextJobId, s.jobs_created)
            (resolveRecords year db s records).1).2.2 }) := by
  induction records with
  | nil => intro db s; rfl
  | cons r rs ih =>
      intro db s
      rw [List.foldl_cons]
      rw [show importRecord year (db, s) r =
        (match (create_or_update_equipment year db s r).1 with
         | some eid => create_job (create_or_update_equipment year db s r).2.1
             (create_or_update_equipment year db s r).2.2 eid r
         | none => ((create_or_update_equipment year db s r).2.1,
             (create_or_update_equipment year db s r).2.2)) from by
        unfold importRecord
        rcases create_or_update_equipment year db s r with ⟨eo, db1, s1⟩
        cases eo <;> rfl]
      rw [resolveRecords_cons]
      obtain ⟨hj, hnj, _, hjc⟩ := cue_frame year db s r
      rcases hres : create_or_update_equipment year db s r with ⟨eo, db1, s1⟩
      rw [hres] at hj hnj hjc
      simp only [] at hj hnj hjc ⊢
      cases eo with
      | none =>
          rw [ih db1 s1, hj, hnj, hjc]
      | some eid =>
          simp only []
          rw [cj_char db1 s1 eid r, hj, hnj, hjc]
          rw [ih { db1 with
              jobs := (jobStep (db.jobs, db.nextJobId, s.jobs_created) (r, eid)).1
              nextJobId := (jobStep (db.jobs, db.nextJobId, s.jobs_created) (r, eid)).2.1 }
            { s1 with
              jobs_created := (jobStep (db.jobs, db.nextJobId, s.jobs_created) (r, eid)).2.2 }]
          rw [show ({ db1 with
              jobs := (jobStep (db.jobs, db.nextJobId, s.jobs_created) (r, eid)).1
              nextJobId := (jobStep (db.jobs, db.nextJobId, s.jobs_created) (r, eid)).2.1 } : DB) =
            { db1 with
              jobs := (jobStep (db.jobs, db.nextJobId, s.jobs_created) (r, eid)).1
              nextJobId := (jobStep (db.jobs, db.nextJobId, s.jobs_created) (r, eid)).2.1 } from rfl]
          rw [rr_jobs_subst year rs db1 s1
            (jobStep (db.jobs, db.nextJobId, s.jobs_created) (r, eid)).1
            (jobStep (db.jobs, db.nextJobId, s.jobs_created) (r, eid)).2.1
            (jobStep (db.jobs, db.nextJobId, s.jobs_created) (r, eid)).2.2]
          rfl

/-- Unfolding of a non-empty import. -/
theorem import_nonempty (year : Nat) (db : DB) (s : ImportSummary)
    (records : List WorkRecord) (h : records ≠ []) :
    import_to_database year db s records =
      (true, records.foldl (importRecord year) (db, s)) := by
  unfold import_to_database
  rw [if_neg (by simpa [List.isEmpty_iff] using h)]

/-- `rr_jobs_subst` specialised to a freshly constructed summary. -/
theorem rr_jobs_subst_init (year : Nat) (records : List WorkRecord) (db : DB)
    (jb : List Job) (nj : Nat) :
    resolveRecords year { db with jobs := jb, nextJobId := nj } initSummary records =
      ((resolveRecords year db initSummary records).1,
       { (resolveRecords year db initSummary records).2.1 with jobs := jb, nextJobId := nj },
       { (resolveRecords year db initSummary records).2.2 with jobs_created := 0 }) :=
  rr_jobs_subst year records db initSummary jb nj 0

/-- C1: import is idempotent at the (equipment, date) granularity — for every
workbook, parsing it and importing the result a second time on the database
state left by the first import creates no job (the second run's
`jobs_created` is 0), leaves the job table exactly as the first run left it,
and the table after the first run has no two jobs sharing an
(equipment, date_done) pair.  The store is assumed to start with distinct job
keys, distinct job ids and a fresh id counter, as a relational store
guarantees. -/
theorem c1_idempotent_import (year : Nat) (wb : Workbook) (db0 : DB)
    (hkeys : KeyDistinct db0.jobs) (hids : IdDistinct db0.jobs)
    (hfresh : IdsBelow db0.jobs db0.nextJobId) :
    (import_to_database year
        (import_to_database year db0 initSummary (parse_excel wb)).2.1
        initSummary (parse_excel wb)).2.2.jobs_created = 0 ∧
    (import_to_database year
        (import_to_database year db0 initSummary (parse_excel wb)).2.1
        initSummary (parse_excel wb)).2.1.jobs =
      (import_to_database year db0 initSummary (parse_excel wb)).2.1.jobs ∧
    KeyDistinct (import_to_database year db0 initSummary (parse_excel wb)).2.1.jobs := by
  by_cases hne : parse_excel wb = []
  · rw [hne]
    exact ⟨rfl, rfl, hkeys⟩
  · obtain ⟨hmapfst, hannid, hmono⟩ :=
      rr_anns year (parse_excel wb) db0 initSummary
    obtain ⟨g1, g2, g3, g4, g5⟩ :=
      jobsFold_run1 (resolveRecords year db0 initSummary (parse_excel wb)).1
        db0.jobs db0.nextJobId initSummary.jobs_created hkeys hids hfresh
    have hallsome : ∀ r ∈ parse_excel wb,
        (idOf (resolveRecords year db0 initSummary (parse_excel wb)).2.1
          r.equipment).isSome := by
      intro r hr
      obtain ⟨a, ha, rfl⟩ := List.mem_map.mp (hmapfst ▸ hr)
      rw [hannid a ha]
      rfl
    have hAcanon : (resolveRecords year db0 initSummary (parse_excel wb)).1 =
        (parse_excel wb).map (fun r =>
          (r, (idOf (resolveRecords year db0 initSummary (parse_excel wb)).2.1
            r.equipment).getD 0)) := by
      have h := anns_canonical
        (fun r => idOf (resolveRecords year db0 initSummary (parse_excel wb)).2.1
          r.equipment) hannid
      rw [hmapfst] at h
      exact h
    have hA2 : (resolveRecords year
        (resolveRecords year db0 initSummary (parse_excel wb)).2.1
        initSummary (parse_excel wb)).1 =
        (resolveRecords year db0 initSummary (parse_excel wb)).1 := by
      rw [rr_of_all_resolved year (parse_excel wb) _ initSummary hallsome]
      exact hAcanon.symm
    rw [import_nonempty year db0 initSummary (parse_excel wb) hne,
      main_decomp year (parse_excel wb) db0 initSummary]
    simp only []
    rw [import_nonempty year _ initSummary (parse_excel wb) hne,
      main_decomp year (parse_excel wb) _ initSummary]
    simp only []
    rw [rr_jobs_subst_init year (parse_excel wb)
      (resolveRecords year db0 initSummary (parse_excel wb)).2.1
      (jobsFold (db0.jobs, db0.nextJobId, initSummary.jobs_created)
        (resolveRecords year db0 initSummary (parse_excel wb)).1).1
      (jobsFold (db0.jobs, db0.nextJobId, initSummary.jobs_created)
        (resolveRecords year db0 initSummary (parse_excel wb)).1).2.1]
    simp only []
    rw [hA2]
    rw [jobsFold_run2 (resolveRecords year db0 initSummary (parse_excel wb)).1
      (jobsFold (db0.jobs, db0.nextJobId, initSummary.jobs_created)
        (resolveRecords year db0 initSummary (parse_excel wb)).1).1
      (jobsFold (db0.jobs, db0.nextJobId, initSummary.jobs_created)
        (resolveRecords year db0 initSummary (parse_excel wb)).1).2.1
      initSummary.jobs_created g1 g2 g4]
    simp only []
    refine ⟨rfl, ?_, g1⟩
    rw [show ((jobsFold (db0.jobs, db0.nextJobId, initSummary.jobs_created)
        (resolveRecords year db0 initSummary (parse_excel wb)).1).1.map
          (fun j => overlay (resolveRecords year db0 initSummary (parse_excel wb)).1 j)) =
      (jobsFold (db0.jobs, db0.nextJobId, initSummary.jobs_created)
        (resolveRecords year db0 initSummary (parse_excel wb)).1).1.map id from
      List.map_congr_left (fun j hj => overlay_of_closedAt (g5 j hj)), List.map_id]

/-- C1 witness: the theorem applied to the scenario workbook over the empty
store — re-importing it creates zero jobs on the second run. -/
theorem c1_idempotent_import_witness :
    (import_to_database 2024
        (import_to_database 2024 emptyDB initSummary (parse_excel scenarioWb)).2.1
        initSummary (parse_excel scenarioWb)).2.2.jobs_created = 0 :=
  (c1_idempotent_import 2024 scenarioWb emptyDB List.Pairwise.nil List.Pairwise.nil
    (fun j hj => absurd hj (List.not_mem_nil j))).1

end AppWeb
